import Mathlib

/-!
# Apigee provider: cache and environment key-value-map resources

A shallow embedding of `apigee/resource_cache.go` and
`apigee/resource_environment_kvm.go`.

* A Go `map[string]string` is an association list; `range` visits the pairs in
  list order (Go leaves the order open, and every statement below holds for
  every list), `m[k]` is `List.lookup`.  A Go map has no repeated key, which is
  the hypothesis `keysNodup` where a statement needs it.
* `schema.ResourceData` is a record of the identity, the values before the
  pending change, the current values, and the values set by the running
  operation.
* The HTTP collaborator, the JSON codec and the identifier codec live in
  package `client` and the standard library, outside these two files: they are
  fields of `Client`.  Every request an operation issues is appended to a
  trace, and the collaborator answers from the trace so far and the request.
-/

namespace Apigee

/-! ## Go maps -/

/-- Go `map[string]string` (the values of both entry fields are strings). -/
abbrev GoMap := List (String × String)

/-- The keys of a map, in iteration order. -/
def keys (m : GoMap) : List String := m.map Prod.fst

/-- A Go map holds every key once. -/
def keysNodup (m : GoMap) : Prop := (keys m).Nodup

instance (m : GoMap) : Decidable (keysNodup m) :=
  inferInstanceAs (Decidable (keys m).Nodup)

/-- Go `_, ok := m[k]`. -/
def hasKey (m : GoMap) (k : String) : Bool := (m.lookup k).isSome

/-- Go `m[k].(string)` for a key the map holds (the empty string stands in for a missing key). -/
def valueAt (m : GoMap) (k : String) : String := (m.lookup k).getD ""

/-- Go `m[k] = v`: overwrite the value of a key the map holds, add the pair otherwise. -/
def assign : GoMap → String → String → GoMap
  | [], k, v => [(k, v)]
  | (k0, v0) :: rest, k, v => if k0 = k then (k0, v) :: rest else (k0, v0) :: assign rest k v

/-! ## Package `client`: domain objects -/

/-- Go `client.Attribute`. -/
structure Attribute where
  Name : String
  Value : String
deriving DecidableEq, Repr

/-- Go `client.KVM`. -/
structure KVM where
  EnvironmentName : String
  Name : String
  Encrypted : Bool
  Entries : List Attribute
deriving DecidableEq, Repr

/-- Go `client.ExpiryValue`. -/
structure ExpiryValue where
  Value : String
deriving DecidableEq, Repr

/-- Go `client.Expiration`: three optional holders (pointers in Go). -/
structure Expiration where
  TimeoutInSec : Option ExpiryValue
  TimeOfDay : Option ExpiryValue
  ExpiryDate : Option ExpiryValue
deriving DecidableEq, Repr

/-- Go `client.Cache`. -/
structure Cache where
  EnvironmentName : String
  Name : String
  Description : String
  ExpirySettings : Expiration
  SkipCacheIfElementSizeInKBExceeds : Int
deriving DecidableEq, Repr

/-- Go `client.RequestError`: the typed error of the HTTP collaborator. -/
structure RequestError where
  StatusCode : Nat
  Message : String
deriving DecidableEq, Repr

/-- The errors an operation can meet: a request error or an `encoding/json` error. -/
inductive GoError where
  | request (re : RequestError)
  | json (msg : String)
deriving DecidableEq, Repr

/-- Go `diag.Diagnostics`; `diag.FromErr err` is the one-element list. -/
abbrev Diagnostics := List GoError

/-! ## Requests -/

/-- HTTP verbs used by the two resources. -/
inductive Method where
  | GET | POST | PUT | DELETE
deriving DecidableEq, Repr

/-- A request path: one of the path templates of package `client` with its `Sprintf`
arguments; two paths are the same only when template and arguments are. -/
inductive Path where
  | CachePath (org env : String)
  | CachePathGet (org env name : String)
  | EnvironmentKVMPath (org env : String)
  | EnvironmentKVMPathGet (org env name : String)
  | EnvironmentKVMPathEntries (org env name : String)
  | EnvironmentKVMPathEntriesGet (org env name key : String)
deriving DecidableEq, Repr

/-- What a request body is the JSON text of (`empty` is the empty buffer). -/
inductive Payload where
  | empty
  | attribute (a : Attribute)
  | kvm (k : KVM)
  | cache (c : Cache)
deriving DecidableEq, Repr

/-- One call of `c.HttpRequest`: verb, path, whether the JSON content-type header is
sent, and the body (the query is nil everywhere). -/
structure Request where
  method : Method
  path : Path
  jsonHeader : Bool
  body : Payload
deriving DecidableEq, Repr

/-- Go `*client.Client` with the collaborators of the two files:
`HttpRequest` answers a request given the requests issued before it in the
running operation; `encodeError` is the error of `json.NewEncoder(..).Encode`, if
any; `decodeCache` and `decodeKVM` are `json.NewDecoder(body).Decode`; `EncodeId`
and `DecodeId` are the identifier codec. -/
structure Client where
  Organization : String
  IsPublic : Bool
  HttpRequest : List Request → Request → Except RequestError String
  encodeError : Payload → Option GoError
  decodeCache : String → Except GoError Cache
  decodeKVM : String → Except GoError KVM
  EncodeId : String → String → String
  DecodeId : String → String × String

/-! ## `schema.ResourceData` -/

/-- A field value of one of the schema types used here. -/
inductive Value where
  | str (s : String)
  | int (n : Int)
  | bool (b : Bool)
  | map (m : GoMap)
deriving DecidableEq, Repr

/-- Go `*schema.ResourceData`: `state` holds the values before the pending change,
`values` the current ones, `written` the `d.Set` calls of the running operation,
latest first. -/
structure ResourceData where
  id : String
  state : List (String × Value)
  values : List (String × Value)
  written : List (String × Value)
deriving DecidableEq, Repr

namespace ResourceData

/-- Go `d.Id()`. -/
def Id (d : ResourceData) : String := d.id

/-- Go `d.SetId(s)`. -/
def SetId (d : ResourceData) (s : String) : ResourceData := { d with id := s }

/-- Go `d.Set(key, v)`. -/
def Set (d : ResourceData) (key : String) (v : Value) : ResourceData :=
  { d with written := (key, v) :: d.written }

/-- The current raw value of a field: the latest `Set`, else the current value. -/
def raw (d : ResourceData) (key : String) : Option Value :=
  (d.written ++ d.values).lookup key

/-- Go `d.Get(key).(string)`: the zero value when the field is unset. -/
def getString (d : ResourceData) (key : String) : String :=
  match d.raw key with
  | some (.str s) => s
  | _ => ""

/-- Go `d.Get(key).(bool)`. -/
def getBool (d : ResourceData) (key : String) : Bool :=
  match d.raw key with
  | some (.bool b) => b
  | _ => false

/-- Go `d.Get(key).(int)`. -/
def getInt (d : ResourceData) (key : String) : Int :=
  match d.raw key with
  | some (.int n) => n
  | _ => 0

/-- Go `d.Get(key).(map[string]interface{})`. -/
def getMap (d : ResourceData) (key : String) : GoMap :=
  match d.raw key with
  | some (.map m) => m
  | _ => []

/-- Go `d.GetOk(key)` at a string field: the value, and whether it is not the zero value. -/
def getOkString (d : ResourceData) (key : String) : String × Bool :=
  (d.getString key, decide (d.getString key ≠ ""))

/-- Go `d.GetOk(key)` at a bool field. -/
def getOkBool (d : ResourceData) (key : String) : Bool × Bool :=
  (d.getBool key, d.getBool key)

/-- Go `d.GetOk(key)` at an int field. -/
def getOkInt (d : ResourceData) (key : String) : Int × Bool :=
  (d.getInt key, decide (d.getInt key ≠ 0))

/-- Go `d.GetOk(key)` at a map field. -/
def getOkMap (d : ResourceData) (key : String) : GoMap × Bool :=
  (d.getMap key, !(d.getMap key).isEmpty)

/-- Go `d.GetChange(key)` at a map field: the value before the change and the value after it. -/
def getChangeMap (d : ResourceData) (key : String) : GoMap × GoMap :=
  ((match d.state.lookup key with
    | some (.map m) => m
    | _ => []),
   (match d.values.lookup key with
    | some (.map m) => m
    | _ => []))

end ResourceData

/-- What an operation leaves behind: the resource data, the diagnostics it returns,
and the requests it issued, in order. -/
structure Outcome where
  d : ResourceData
  diags : Diagnostics
  trace : List Request
deriving DecidableEq, Repr

/-! ## `resource_cache.go` -/

/-- Go `fillCache`. -/
def fillCache (c : Cache) (d : ResourceData) : Cache :=
  let c1 : Cache :=
    if (d.getOkString "description").2 then
      { c with Description := (d.getOkString "description").1 }
    else c
  let c2 : Cache :=
    if (d.getOkString "expiry_timeout_in_sec").2 then
      { c1 with ExpirySettings :=
          { TimeoutInSec := some ⟨(d.getOkString "expiry_timeout_in_sec").1⟩,
            TimeOfDay := none, ExpiryDate := none } }
    else c1
  let c3 : Cache :=
    if (d.getOkString "expiry_time_of_day").2 then
      { c2 with ExpirySettings :=
          { TimeoutInSec := none,
            TimeOfDay := some ⟨(d.getOkString "expiry_time_of_day").1⟩, ExpiryDate := none } }
    else c2
  let c4 : Cache :=
    if (d.getOkString "expiry_date").2 then
      { c3 with ExpirySettings :=
          { TimeoutInSec := none, TimeOfDay := none,
            ExpiryDate := some ⟨(d.getOkString "expiry_date").1⟩ } }
    else c3
  if (d.getOkInt "skip_cache_if_element_size_in_kb_exceeds").2 then
    { c4 with SkipCacheIfElementSizeInKBExceeds :=
        (d.getOkInt "skip_cache_if_element_size_in_kb_exceeds").1 }
  else c4

/-- Go `client.Cache{EnvironmentName: e, Name: n}`: the other fields are zero. -/
def newCacheOf (e n : String) : Cache :=
  { EnvironmentName := e, Name := n, Description := "",
    ExpirySettings := { TimeoutInSec := none, TimeOfDay := none, ExpiryDate := none },
    SkipCacheIfElementSizeInKBExceeds := 0 }

/-- Go `resourceCacheCreate`. -/
def resourceCacheCreate (c : Client) (d : ResourceData) : Outcome :=
  let newCache : Cache :=
    fillCache (newCacheOf (d.getString "environment_name") (d.getString "name")) d
  match c.encodeError (.cache newCache) with
  | some err => ⟨d.SetId "", [err], []⟩
  | none =>
    let req : Request :=
      ⟨.POST, .CachePath c.Organization newCache.EnvironmentName, true, .cache newCache⟩
    match c.HttpRequest [] req with
    | .error re => ⟨d.SetId "", [.request re], [req]⟩
    | .ok _ => ⟨d.SetId (c.EncodeId newCache.EnvironmentName newCache.Name), [], [req]⟩

/-- Go `(h != nil) && (h.Value != "")` on an expiry holder. -/
def present (h : Option ExpiryValue) : Bool :=
  match h with
  | some v => decide (v.Value ≠ "")
  | none => false

/-- Go `h.Value` on an expiry holder that is not nil. -/
def valueOf (h : Option ExpiryValue) : String :=
  match h with
  | some v => v.Value
  | none => ""

/-- Go `resourceCacheRead`. -/
def resourceCacheRead (c : Client) (d : ResourceData) : Outcome :=
  let envName := (c.DecodeId d.Id).1
  let name := (c.DecodeId d.Id).2
  let req : Request := ⟨.GET, .CachePathGet c.Organization envName name, false, .empty⟩
  match c.HttpRequest [] req with
  | .error re =>
    if re.StatusCode = 404 then ⟨d.SetId "", [], [req]⟩
    else ⟨d.SetId "", [.request re], [req]⟩
  | .ok body =>
    match c.decodeCache body with
    | .error err => ⟨d.SetId "", [err], [req]⟩
    | .ok retVal =>
      let d1 := d.Set "environment_name" (.str envName)
      let d2 := d1.Set "name" (.str name)
      let d3 := if retVal.Description ≠ "" then d2.Set "description" (.str retVal.Description) else d2
      let timeoutInSec := retVal.ExpirySettings.TimeoutInSec
      let timeOfDay := retVal.ExpirySettings.TimeOfDay
      let expiryDate := retVal.ExpirySettings.ExpiryDate
      let d4 :=
        if present timeoutInSec then d3.Set "expiry_timeout_in_sec" (.str (valueOf timeoutInSec))
        else if present timeOfDay then d3.Set "expiry_time_of_day" (.str (valueOf timeOfDay))
        else if present expiryDate then d3.Set "expiry_date" (.str (valueOf expiryDate))
        else d3
      let d5 :=
        if retVal.SkipCacheIfElementSizeInKBExceeds ≠ 0 then
          d4.Set "skip_cache_if_element_size_in_kb_exceeds"
            (.int retVal.SkipCacheIfElementSizeInKBExceeds)
        else d4
      ⟨d5, [], [req]⟩

/-- Go `resourceCacheUpdate`. -/
def resourceCacheUpdate (c : Client) (d : ResourceData) : Outcome :=
  let envName := (c.DecodeId d.Id).1
  let name := (c.DecodeId d.Id).2
  let upCache : Cache := fillCache (newCacheOf envName name) d
  match c.encodeError (.cache upCache) with
  | some err => ⟨d, [err], []⟩
  | none =>
    let req : Request :=
      ⟨.PUT, .CachePathGet c.Organization envName name, true, .cache upCache⟩
    match c.HttpRequest [] req with
    | .error re => ⟨d, [.request re], [req]⟩
    | .ok _ => ⟨d, [], [req]⟩

/-- Go `resourceCacheDelete`. -/
def resourceCacheDelete (c : Client) (d : ResourceData) : Outcome :=
  let envName := (c.DecodeId d.Id).1
  let name := (c.DecodeId d.Id).2
  let req : Request := ⟨.DELETE, .CachePathGet c.Organization envName name, false, .empty⟩
  match c.HttpRequest [] req with
  | .error re => ⟨d, [.request re], [req]⟩
  | .ok _ => ⟨d.SetId "", [], [req]⟩

/-! ## `resource_environment_kvm.go` -/

/-- Go `fillEnvironmentKVM`. -/
def fillEnvironmentKVM (c : KVM) (d : ResourceData) : KVM :=
  let c1 : KVM :=
    if (d.getOkBool "encrypted").2 then { c with Encrypted := (d.getOkBool "encrypted").1 } else c
  let e : GoMap × Bool :=
    if c1.Encrypted then d.getOkMap "sensitive_entry" else d.getOkMap "entry"
  if e.2 then
    { c1 with Entries := e.1.foldl (fun acc p => acc ++ [Attribute.mk p.1 p.2]) c1.Entries }
  else c1

/-- Go `resourceEnvironmentKVMCreate`. -/
def resourceEnvironmentKVMCreate (c : Client) (d : ResourceData) : Outcome :=
  let newEnvironmentKVM : KVM :=
    fillEnvironmentKVM ⟨d.getString "environment_name", d.getString "name", false, []⟩ d
  match c.encodeError (.kvm newEnvironmentKVM) with
  | some err => ⟨d.SetId "", [err], []⟩
  | none =>
    let req : Request :=
      ⟨.POST, .EnvironmentKVMPath c.Organization newEnvironmentKVM.EnvironmentName, true,
        .kvm newEnvironmentKVM⟩
    match c.HttpRequest [] req with
    | .error re => ⟨d.SetId "", [.request re], [req]⟩
    | .ok _ =>
      ⟨d.SetId (c.EncodeId newEnvironmentKVM.EnvironmentName newEnvironmentKVM.Name), [], [req]⟩

/-- Go `resourceEnvironmentKVMRead`. -/
def resourceEnvironmentKVMRead (c : Client) (d : ResourceData) : Outcome :=
  let envName := (c.DecodeId d.Id).1
  let name := (c.DecodeId d.Id).2
  let req : Request := ⟨.GET, .EnvironmentKVMPathGet c.Organization envName name, false, .empty⟩
  match c.HttpRequest [] req with
  | .error re =>
    if re.StatusCode = 404 then ⟨d.SetId "", [], [req]⟩
    else ⟨d.SetId "", [.request re], [req]⟩
  | .ok body =>
    match c.decodeKVM body with
    | .error err => ⟨d.SetId "", [err], [req]⟩
    | .ok retVal =>
      let d1 := d.Set "environment_name" (.str envName)
      let d2 := d1.Set "name" (.str name)
      let d3 := d2.Set "encrypted" (.bool retVal.Encrypted)
      let entries : GoMap := retVal.Entries.foldl (fun m e => assign m e.Name e.Value) []
      let d4 :=
        if retVal.Encrypted then d3.Set "sensitive_entry" (.map entries)
        else d3.Set "entry" (.map entries)
      ⟨d4, [], [req]⟩

/-- The first loop of `resourceEnvironmentKVMUpdate` (`for oldKey := range oldE`):
a DELETE on the entry path of every old key the new map lacks, stopping at the
first error.  The last argument is the trace so far. -/
def deleteLoop (c : Client) (envName name : String) (newE : GoMap) :
    GoMap → List Request → List Request × Option GoError
  | [], tr => (tr, none)
  | (oldKey, _) :: rest, tr =>
    if hasKey newE oldKey then deleteLoop c envName name newE rest tr
    else
      let req : Request :=
        ⟨.DELETE, .EnvironmentKVMPathEntriesGet c.Organization envName name oldKey, false, .empty⟩
      match c.HttpRequest tr req with
      | .error re => (tr ++ [req], some (.request re))
      | .ok _ => deleteLoop c envName name newE rest (tr ++ [req])

/-- The loop of the public branch of `resourceEnvironmentKVMUpdate`
(`for newKey := range newE`): a POST for every new key that is new or whose value
changed, stopping at the first error. -/
def upsertLoop (c : Client) (envName name : String) (oldE newE : GoMap) :
    GoMap → List Request → List Request × Option GoError
  | [], tr => (tr, none)
  | (newKey, _) :: rest, tr =>
    let oldHasKey := hasKey oldE newKey
    let newOrModValue := valueAt newE newKey
    if oldHasKey && decide (valueAt oldE newKey = newOrModValue) then
      upsertLoop c envName name oldE newE rest tr
    else
      let newOrModEntry : Attribute := ⟨newKey, newOrModValue⟩
      match c.encodeError (.attribute newOrModEntry) with
      | some err => (tr, some err)
      | none =>
        let requestPath : Path :=
          if oldHasKey then .EnvironmentKVMPathEntriesGet c.Organization envName name newKey
          else .EnvironmentKVMPathEntries c.Organization envName name
        let req : Request := ⟨.POST, requestPath, true, .attribute newOrModEntry⟩
        match c.HttpRequest tr req with
        | .error re => (tr ++ [req], some (.request re))
        | .ok _ => upsertLoop c envName name oldE newE rest (tr ++ [req])

/-- Go `resourceEnvironmentKVMUpdate`. -/
def resourceEnvironmentKVMUpdate (c : Client) (d : ResourceData) : Outcome :=
  let envName := (c.DecodeId d.Id).1
  let name := (c.DecodeId d.Id).2
  let encrypted := d.getBool "encrypted"
  let change : GoMap × GoMap :=
    if encrypted then d.getChangeMap "sensitive_entry" else d.getChangeMap "entry"
  let oldE := change.1
  let newE := change.2
  match deleteLoop c envName name newE oldE [] with
  | (tr, some err) => ⟨d, [err], tr⟩
  | (tr, none) =>
    if c.IsPublic then
      match upsertLoop c envName name oldE newE newE tr with
      | (tr2, some err) => ⟨d, [err], tr2⟩
      | (tr2, none) => ⟨d, [], tr2⟩
    else
      let upEnvironmentKVM : KVM := fillEnvironmentKVM ⟨envName, name, false, []⟩ d
      match c.encodeError (.kvm upEnvironmentKVM) with
      | some err => ⟨d, [err], tr⟩
      | none =>
        let req : Request :=
          ⟨.PUT, .EnvironmentKVMPathGet c.Organization envName name, true, .kvm upEnvironmentKVM⟩
        match c.HttpRequest tr req with
        | .error re => ⟨d, [.request re], tr ++ [req]⟩
        | .ok _ => ⟨d, [], tr ++ [req]⟩

/-- Go `resourceEnvironmentKVMDelete`. -/
def resourceEnvironmentKVMDelete (c : Client) (d : ResourceData) : Outcome :=
  let envName := (c.DecodeId d.Id).1
  let name := (c.DecodeId d.Id).2
  let req : Request :=
    ⟨.DELETE, .EnvironmentKVMPathGet c.Organization envName name, false, .empty⟩
  match c.HttpRequest [] req with
  | .error re => ⟨d, [.request re], [req]⟩
  | .ok _ => ⟨d.SetId "", [], [req]⟩

/-! ## Definitions used to state the properties -/

/-- The GET request of `resourceCacheRead`. -/
def cacheGet (c : Client) (d : ResourceData) : Request :=
  ⟨.GET, .CachePathGet c.Organization (c.DecodeId d.Id).1 (c.DecodeId d.Id).2, false, .empty⟩

/-- The GET request of `resourceEnvironmentKVMRead`. -/
def kvmGet (c : Client) (d : ResourceData) : Request :=
  ⟨.GET, .EnvironmentKVMPathGet c.Organization (c.DecodeId d.Id).1 (c.DecodeId d.Id).2, false,
    .empty⟩

/-- The three expiry fields of the cache schema, in the order of the read. -/
def expiryFields : List String :=
  ["expiry_timeout_in_sec", "expiry_time_of_day", "expiry_date"]

/-- The expiry holders of a response next to their schema fields, in the order
timeout, time-of-day, expiry-date. -/
def expiryHolders (e : Expiration) : List (String × Option ExpiryValue) :=
  [("expiry_timeout_in_sec", e.TimeoutInSec), ("expiry_time_of_day", e.TimeOfDay),
    ("expiry_date", e.ExpiryDate)]

/-- The first expiry field, in that order, whose holder is present with a non-empty
value, as the write it calls for; nothing when there is none. -/
def firstPresent (e : Expiration) : List (String × Value) :=
  match (expiryHolders e).find? (fun p => present p.2) with
  | some p => [(p.1, .str (valueOf p.2))]
  | none => []

/-- How many of the three holders of an `Expiration` are present. -/
def holdersSet (e : Expiration) : Nat :=
  e.TimeoutInSec.isSome.toNat + e.TimeOfDay.isSome.toNat + e.ExpiryDate.isSome.toNat

/-- The expiry fields of a configuration as the `Expiration` each would build alone,
in the order `fillCache` reads them. -/
def expiryChoices (d : ResourceData) : List (String × Expiration) :=
  [(d.getString "expiry_timeout_in_sec",
      ⟨some ⟨d.getString "expiry_timeout_in_sec"⟩, none, none⟩),
   (d.getString "expiry_time_of_day", ⟨none, some ⟨d.getString "expiry_time_of_day"⟩, none⟩),
   (d.getString "expiry_date", ⟨none, none, some ⟨d.getString "expiry_date"⟩⟩)]

/-- The `Expiration` of the last non-empty expiry field of a configuration; all
holders absent when every field is empty. -/
def lastNonEmpty (d : ResourceData) : Expiration :=
  match ((expiryChoices d).filter (fun p => decide (p.1 ≠ ""))).getLast? with
  | some p => p.2
  | none => ⟨none, none, none⟩

/-- The writes of an operation under the keys of `ks`, latest first. -/
def writesAt (d : ResourceData) (ks : List String) : List (String × Value) :=
  d.written.filter (fun p => decide (p.1 ∈ ks))

/-- The object `resourceCacheCreate` serializes. -/
def cacheCreateBody (d : ResourceData) : Cache :=
  fillCache (newCacheOf (d.getString "environment_name") (d.getString "name")) d

/-- The POST request of `resourceCacheCreate`. -/
def cachePost (c : Client) (d : ResourceData) : Request :=
  ⟨.POST, .CachePath c.Organization (cacheCreateBody d).EnvironmentName, true,
    .cache (cacheCreateBody d)⟩

/-- The object `resourceEnvironmentKVMCreate` serializes. -/
def kvmCreateBody (d : ResourceData) : KVM :=
  fillEnvironmentKVM ⟨d.getString "environment_name", d.getString "name", false, []⟩ d

/-- The POST request of `resourceEnvironmentKVMCreate`. -/
def kvmPost (c : Client) (d : ResourceData) : Request :=
  ⟨.POST, .EnvironmentKVMPath c.Organization (kvmCreateBody d).EnvironmentName, true,
    .kvm (kvmCreateBody d)⟩

/-- The read of a cache gets a response that decodes. -/
def cacheReadable (c : Client) (d : ResourceData) : Prop :=
  ∃ body retVal, c.HttpRequest [] (cacheGet c d) = .ok body ∧ c.decodeCache body = .ok retVal

/-- The read of a key-value map gets a response that decodes. -/
def kvmReadable (c : Client) (d : ResourceData) : Prop :=
  ∃ body retVal, c.HttpRequest [] (kvmGet c d) = .ok body ∧ c.decodeKVM body = .ok retVal

/-- The DELETE of one entry: the per-key entry path, no body. -/
def deleteEntry (c : Client) (envName name key : String) : Request :=
  ⟨.DELETE, .EnvironmentKVMPathEntriesGet c.Organization envName name key, false, .empty⟩

/-- The POST that adds an entry: the entries path, the entry as body. -/
def addEntry (c : Client) (envName name key value : String) : Request :=
  ⟨.POST, .EnvironmentKVMPathEntries c.Organization envName name, true,
    .attribute ⟨key, value⟩⟩

/-- The POST that changes an entry: the per-key entry path, the entry as body. -/
def modifyEntry (c : Client) (envName name key value : String) : Request :=
  ⟨.POST, .EnvironmentKVMPathEntriesGet c.Organization envName name key, true,
    .attribute ⟨key, value⟩⟩

/-- The PUT that replaces a whole key-value map. -/
def putAll (c : Client) (envName name : String) (k : KVM) : Request :=
  ⟨.PUT, .EnvironmentKVMPathGet c.Organization envName name, true, .kvm k⟩

/-- The deletions an update calls for: one per old key the new map lacks. -/
def deleteCalls (c : Client) (envName name : String) (newE oldE : GoMap) : List Request :=
  (oldE.filter (fun p => !hasKey newE p.1)).map (fun p => deleteEntry c envName name p.1)

/-- The call, if any, that the public branch of an update makes for one new key. -/
def upsertCall (c : Client) (envName name : String) (oldE newE : GoMap) (key : String) :
    Option Request :=
  if hasKey oldE key then
    if valueAt oldE key = valueAt newE key then none
    else some (modifyEntry c envName name key (valueAt newE key))
  else some (addEntry c envName name key (valueAt newE key))

/-- The additions and changes the public branch calls for, over the keys of `l`. -/
def upsertCalls (c : Client) (envName name : String) (oldE newE l : GoMap) : List Request :=
  l.filterMap (fun p => upsertCall c envName name oldE newE p.1)

/-- Issue a list of requests one after the other, serializing each body first,
and stop at the first error. -/
def runCalls (c : Client) : List Request → List Request → List Request × Option GoError
  | [], tr => (tr, none)
  | r :: rest, tr =>
    match (if r.body = .empty then none else c.encodeError r.body) with
    | some err => (tr, some err)
    | none =>
      match c.HttpRequest tr r with
      | .error re => (tr ++ [r], some (.request re))
      | .ok _ => runCalls c rest (tr ++ [r])

/-- The before and after entry maps `resourceEnvironmentKVMUpdate` looks up. -/
def entryChange (d : ResourceData) : GoMap × GoMap :=
  if d.getBool "encrypted" then d.getChangeMap "sensitive_entry" else d.getChangeMap "entry"

/-- The whole sequence of calls of an update, in order: the deletions, then the
additions and changes (public mode) or the one bulk PUT. -/
def updatePlan (c : Client) (d : ResourceData) : List Request :=
  deleteCalls c (c.DecodeId d.Id).1 (c.DecodeId d.Id).2 (entryChange d).2 (entryChange d).1 ++
    (if c.IsPublic then
      upsertCalls c (c.DecodeId d.Id).1 (c.DecodeId d.Id).2 (entryChange d).1 (entryChange d).2
        (entryChange d).2
    else
      [putAll c (c.DecodeId d.Id).1 (c.DecodeId d.Id).2
        (fillEnvironmentKVM ⟨(c.DecodeId d.Id).1, (c.DecodeId d.Id).2, false, []⟩ d)])

/-- The diagnostics for an optional error. -/
def diagsOf (e : Option GoError) : Diagnostics :=
  match e with
  | some err => [err]
  | none => []

/-- Every call of a trace succeeded when it was issued. -/
def allOk (c : Client) (tr : List Request) : Prop :=
  ∀ pre r post, tr = pre ++ r :: post → ∃ s, c.HttpRequest pre r = .ok s

/-- The same client with a collaborator that answers every request and an encoder
that never fails. -/
def succeeding (c : Client) : Client :=
  { c with HttpRequest := fun _ _ => .ok "", encodeError := fun _ => none }

/-- The key a per-entry request is about: the name in its body, else the key of its path. -/
def keyOf (r : Request) : Option String :=
  match r.body, r.path with
  | .attribute a, _ => some a.Name
  | _, .EnvironmentKVMPathEntriesGet _ _ _ key => some key
  | _, _ => none

/-- The same client in public mode. -/
def asPublic (c : Client) : Client := { c with IsPublic := true }

/-- The entry field the encrypted flag selects. -/
def selectedField (encrypted : Bool) : String :=
  if encrypted then "sensitive_entry" else "entry"

/-- The entry field the encrypted flag leaves aside. -/
def otherField (encrypted : Bool) : String :=
  if encrypted then "entry" else "sensitive_entry"

/-- The entries of a map as attributes, in iteration order. -/
def toAttributes (m : GoMap) : List Attribute := m.map (fun p => ⟨p.1, p.2⟩)

/-- Two resource data with the same identity that agree on every field but `key`. -/
def agreeExcept (key : String) (d1 d2 : ResourceData) : Prop :=
  d1.id = d2.id ∧
  ∀ k, k ≠ key →
    d1.raw k = d2.raw k ∧ d1.state.lookup k = d2.state.lookup k ∧
    d1.values.lookup k = d2.values.lookup k

/-- The resource data with one field replaced, before and after the change. -/
def overwrite (d : ResourceData) (key : String) (old new : Value) : ResourceData :=
  { d with state := (key, old) :: d.state, values := (key, new) :: d.values }

/-- The mapping `resourceEnvironmentKVMRead` rebuilds from the returned entry list. -/
def rebuilt (k : KVM) : GoMap :=
  k.Entries.foldl (fun m e => assign m e.Name e.Value) []

/-! ## Sample inputs -/

/-- An identifier codec for the samples: `env:name`. -/
def sampleEncodeId (e n : String) : String := e ++ ":" ++ n

/-- The decoder of the sample codec: split at the first colon. -/
def sampleDecodeId (s : String) : String × String :=
  (String.mk (s.data.takeWhile (fun ch => decide (ch ≠ ':'))),
   String.mk ((s.data.dropWhile (fun ch => decide (ch ≠ ':'))).drop 1))

/-- A client of organization `org` whose collaborator answers every request with
the given body and whose encoder never fails. -/
def sampleClient (isPublic : Bool) (answer : String) (cache : Except GoError Cache)
    (kvm : Except GoError KVM) : Client :=
  { Organization := "org", IsPublic := isPublic,
    HttpRequest := fun _ _ => .ok answer,
    encodeError := fun _ => none,
    decodeCache := fun _ => cache,
    decodeKVM := fun _ => kvm,
    EncodeId := sampleEncodeId,
    DecodeId := sampleDecodeId }

/-- A client whose collaborator fails every request with the given status code. -/
def failingClient (status : Nat) : Client :=
  { sampleClient true "" (.error (.json "EOF")) (.error (.json "EOF")) with
    HttpRequest := fun _ _ => .error ⟨status, "failed"⟩ }

/-- A client whose collaborator answers the first request and fails every later one
with status 500. -/
def secondFails : Client :=
  { sampleClient true "" (.error (.json "EOF")) (.error (.json "EOF")) with
    HttpRequest := fun tr _ => if tr.isEmpty then .ok "" else .error ⟨500, "failed"⟩ }

/-- The update of the spec's example: the plain entries change from
a=1, b=2 to b=2, c=3. -/
def sampleUpdate : ResourceData :=
  { id := "env:map",
    state := [("environment_name", .str "env"), ("name", .str "map"),
      ("entry", .map [("a", "1"), ("b", "2")])],
    values := [("environment_name", .str "env"), ("name", .str "map"),
      ("entry", .map [("b", "2"), ("c", "3")])],
    written := [] }

/-- An update with four calls to make: the plain entries change from
a=1, b=2, x=0 to b=2, c=3, y=9. -/
def sampleUpdate2 : ResourceData :=
  { id := "env:map",
    state := [("entry", .map [("a", "1"), ("b", "2"), ("x", "0")])],
    values := [("entry", .map [("b", "2"), ("c", "3"), ("y", "9")])],
    written := [] }

/-- A cache response carrying all three expiry values, an empty description and a
zero threshold. -/
def sampleCacheResponse : Cache :=
  { EnvironmentName := "env", Name := "cache1", Description := "",
    ExpirySettings :=
      { TimeoutInSec := some ⟨"300"⟩, TimeOfDay := some ⟨"10:00:00"⟩,
        ExpiryDate := some ⟨"12-31-2030"⟩ },
    SkipCacheIfElementSizeInKBExceeds := 0 }

/-- An encrypted key-value-map response with one entry. -/
def sampleKVMResponse : KVM :=
  { EnvironmentName := "env", Name := "map", Encrypted := true, Entries := [⟨"k", "v"⟩] }

/-- A client that answers every request and decodes the two sample responses. -/
def readingClient : Client :=
  sampleClient true "body" (.ok sampleCacheResponse) (.ok sampleKVMResponse)

/-- A client whose collaborator answers 404 on the cache path and 500 elsewhere. -/
def goneClient : Client :=
  { sampleClient true "" (.error (.json "EOF")) (.error (.json "EOF")) with
    HttpRequest := fun _ r =>
      match r.path with
      | .CachePathGet _ _ _ => .error ⟨404, "not found"⟩
      | _ => .error ⟨500, "server error"⟩ }

/-- A tracked resource of which only the identity is known. -/
def sampleTracked : ResourceData :=
  { id := "env:cache1", state := [], values := [], written := [] }

/-- A tracked cache whose state holds a description and a threshold. -/
def sampleStale : ResourceData :=
  { id := "env:cache1",
    state := [("environment_name", .str "env"), ("name", .str "cache1"),
      ("description", .str "old"), ("skip_cache_if_element_size_in_kb_exceeds", .int 12)],
    values := [("environment_name", .str "env"), ("name", .str "cache1"),
      ("description", .str "old"), ("skip_cache_if_element_size_in_kb_exceeds", .int 12)],
    written := [] }

/-- A cache configuration with all three expiry fields set. -/
def sampleCacheConfig : ResourceData :=
  { id := "", state := [],
    values := [("environment_name", .str "env"), ("name", .str "cache1"),
      ("expiry_timeout_in_sec", .str "300"), ("expiry_time_of_day", .str "10:00:00"),
      ("expiry_date", .str "12-31-2030")],
    written := [] }

/-! ## Properties -/

/-- C9: `fillCache` on a cache with no expiry set leaves at most one of the three
holders present, and the `ExpirySettings` it builds is that of the last non-empty
field in the order expiry_timeout_in_sec, expiry_time_of_day, expiry_date (all
three holders absent when every field is empty), also when several are non-empty. -/
theorem fillCache_expiry_exclusive (c0 : Cache) (d : ResourceData)
    (h0 : c0.ExpirySettings = ⟨none, none, none⟩) :
    holdersSet (fillCache c0 d).ExpirySettings ≤ 1 ∧
    (fillCache c0 d).ExpirySettings = lastNonEmpty d ∧
    (fillCache c0 d).ExpirySettings =
      (if d.getString "expiry_date" ≠ "" then ⟨none, none, some ⟨d.getString "expiry_date"⟩⟩
       else if d.getString "expiry_time_of_day" ≠ "" then
         ⟨none, some ⟨d.getString "expiry_time_of_day"⟩, none⟩
       else if d.getString "expiry_timeout_in_sec" ≠ "" then
         ⟨some ⟨d.getString "expiry_timeout_in_sec"⟩, none, none⟩
       else ⟨none, none, none⟩) := by
  simp only [fillCache, ResourceData.getOkString, ResourceData.getOkInt, lastNonEmpty,
    expiryChoices, holdersSet]
  by_cases h1 : d.getString "expiry_timeout_in_sec" = "" <;>
  by_cases h2 : d.getString "expiry_time_of_day" = "" <;>
  by_cases h3 : d.getString "expiry_date" = "" <;>
  by_cases h4 : d.getInt "skip_cache_if_element_size_in_kb_exceeds" = 0 <;>
  by_cases h5 : d.getString "description" = "" <;>
  simp [h0, h1, h2, h3, h4, h5, List.filter, List.getLast?]

/-- C3: when the GET of a read fails, the read reports no error exactly when the
status code is 404, and then the identity is cleared; with any other status code
the request error is the one diagnostic reported.  Both for the cache read and
for the key-value-map read. -/
theorem read_failed_get_silent_iff_404 (c : Client) (d : ResourceData) :
    (∀ re, c.HttpRequest [] (cacheGet c d) = .error re →
      ((resourceCacheRead c d).diags = [] ↔ re.StatusCode = 404) ∧
      (re.StatusCode = 404 → (resourceCacheRead c d).d.id = "") ∧
      (re.StatusCode ≠ 404 → (resourceCacheRead c d).diags = [.request re])) ∧
    (∀ re, c.HttpRequest [] (kvmGet c d) = .error re →
      ((resourceEnvironmentKVMRead c d).diags = [] ↔ re.StatusCode = 404) ∧
      (re.StatusCode = 404 → (resourceEnvironmentKVMRead c d).d.id = "") ∧
      (re.StatusCode ≠ 404 → (resourceEnvironmentKVMRead c d).diags = [.request re])) := by
  constructor
  · intro re h1
    simp only [cacheGet] at h1
    simp only [resourceCacheRead, h1]
    by_cases h : re.StatusCode = 404 <;> simp [h, ResourceData.SetId]
  · intro re h2
    simp only [kvmGet] at h2
    simp only [resourceEnvironmentKVMRead, h2]
    by_cases h : re.StatusCode = 404 <;> simp [h, ResourceData.SetId]

/-- C4: on a successful, decodable response `resourceCacheRead` writes at most one of
the three expiry fields, and it is the first in the order timeout, time-of-day,
expiry-date whose holder is present with a non-empty value; when none is, no
expiry field is written. -/
theorem cacheRead_expiry_precedence (c : Client) (d : ResourceData) (body : String)
    (retVal : Cache)
    (hfresh : d.written = [])
    (hget : c.HttpRequest [] (cacheGet c d) = .ok body)
    (hdec : c.decodeCache body = .ok retVal) :
    writesAt (resourceCacheRead c d).d expiryFields = firstPresent retVal.ExpirySettings ∧
    (writesAt (resourceCacheRead c d).d expiryFields).length ≤ 1 ∧
    (present retVal.ExpirySettings.TimeoutInSec = true →
      writesAt (resourceCacheRead c d).d expiryFields =
        [("expiry_timeout_in_sec", .str (valueOf retVal.ExpirySettings.TimeoutInSec))]) ∧
    (present retVal.ExpirySettings.TimeoutInSec = false →
      present retVal.ExpirySettings.TimeOfDay = true →
      writesAt (resourceCacheRead c d).d expiryFields =
        [("expiry_time_of_day", .str (valueOf retVal.ExpirySettings.TimeOfDay))]) ∧
    (present retVal.ExpirySettings.TimeoutInSec = false →
      present retVal.ExpirySettings.TimeOfDay = false →
      present retVal.ExpirySettings.ExpiryDate = true →
      writesAt (resourceCacheRead c d).d expiryFields =
        [("expiry_date", .str (valueOf retVal.ExpirySettings.ExpiryDate))]) ∧
    (present retVal.ExpirySettings.TimeoutInSec = false →
      present retVal.ExpirySettings.TimeOfDay = false →
      present retVal.ExpirySettings.ExpiryDate = false →
      writesAt (resourceCacheRead c d).d expiryFields = []) := by
  simp only [cacheGet] at hget
  simp only [resourceCacheRead, hget, hdec, writesAt, firstPresent, expiryHolders,
    expiryFields, ResourceData.Set, hfresh]
  by_cases h1 : present retVal.ExpirySettings.TimeoutInSec = true <;>
  by_cases h2 : present retVal.ExpirySettings.TimeOfDay = true <;>
  by_cases h3 : present retVal.ExpirySettings.ExpiryDate = true <;>
  by_cases h4 : retVal.SkipCacheIfElementSizeInKBExceeds = 0 <;>
  by_cases h5 : retVal.Description = "" <;>
  simp [h1, h2, h3, h4, h5, List.filter, List.find?]

/-- C5 (amended): a successful `resourceCacheRead` writes description only when the
response's description is non-empty and skip_cache_if_element_size_in_kb_exceeds
only when its threshold is nonzero (and then writes the response's value).  For
a response with empty description and zero threshold the read writes neither
field, so each keeps the value it had before the read: unset when it was unset,
and the earlier value otherwise (the read never clears a field). -/
theorem cacheRead_omits_zero_valued (c : Client) (d : ResourceData) (body : String)
    (retVal : Cache)
    (hfresh : d.written = [])
    (hget : c.HttpRequest [] (cacheGet c d) = .ok body)
    (hdec : c.decodeCache body = .ok retVal) :
    writesAt (resourceCacheRead c d).d ["description"] =
      (if retVal.Description ≠ "" then [("description", .str retVal.Description)] else []) ∧
    writesAt (resourceCacheRead c d).d ["skip_cache_if_element_size_in_kb_exceeds"] =
      (if retVal.SkipCacheIfElementSizeInKBExceeds ≠ 0 then
        [("skip_cache_if_element_size_in_kb_exceeds",
          .int retVal.SkipCacheIfElementSizeInKBExceeds)]
       else []) ∧
    (retVal.Description = "" → retVal.SkipCacheIfElementSizeInKBExceeds = 0 →
      writesAt (resourceCacheRead c d).d
        ["description", "skip_cache_if_element_size_in_kb_exceeds"] = [] ∧
      (resourceCacheRead c d).d.raw "description" = d.raw "description" ∧
      (resourceCacheRead c d).d.raw "skip_cache_if_element_size_in_kb_exceeds" =
        d.raw "skip_cache_if_element_size_in_kb_exceeds" ∧
      (d.raw "description" = none → (resourceCacheRead c d).d.raw "description" = none) ∧
      (d.raw "skip_cache_if_element_size_in_kb_exceeds" = none →
        (resourceCacheRead c d).d.raw "skip_cache_if_element_size_in_kb_exceeds" = none)) := by
  simp only [cacheGet] at hget
  simp only [resourceCacheRead, hget, hdec, writesAt, ResourceData.Set, ResourceData.raw,
    hfresh]
  by_cases h1 : present retVal.ExpirySettings.TimeoutInSec = true <;>
  by_cases h2 : present retVal.ExpirySettings.TimeOfDay = true <;>
  by_cases h3 : present retVal.ExpirySettings.ExpiryDate = true <;>
  by_cases h4 : retVal.SkipCacheIfElementSizeInKBExceeds = 0 <;>
  by_cases h5 : retVal.Description = "" <;>
  simp [h1, h2, h3, h4, h5, List.filter, List.lookup]

/-- `fillCache` keeps the environment name and the name of the object. -/
theorem fillCache_names (c0 : Cache) (d : ResourceData) :
    (fillCache c0 d).EnvironmentName = c0.EnvironmentName ∧ (fillCache c0 d).Name = c0.Name := by
  simp only [fillCache]
  split_ifs <;> simp

/-- `fillEnvironmentKVM` keeps the environment name and the name of the object. -/
theorem fillEnvironmentKVM_names (k : KVM) (d : ResourceData) :
    (fillEnvironmentKVM k d).EnvironmentName = k.EnvironmentName ∧
    (fillEnvironmentKVM k d).Name = k.Name := by
  simp only [fillEnvironmentKVM]
  split_ifs <;> simp

/-- C7: after `resourceCacheCreate` and after `resourceEnvironmentKVMCreate`, when the
serialization and the POST both succeed the identity is the encoded identifier
of the configured environment_name and name and no error is reported; on an
encode error or a request error the identity is empty and that error is the one
reported.  So, the encoded identifier not being the empty string, the identity
is the encoded identifier exactly when both succeed. -/
theorem create_identity_iff_success (c : Client) (d : ResourceData) :
    (((c.encodeError (.cache (cacheCreateBody d)) = none ∧
          ∃ s, c.HttpRequest [] (cachePost c d) = .ok s) →
        (resourceCacheCreate c d).d.id =
          c.EncodeId (d.getString "environment_name") (d.getString "name") ∧
        (resourceCacheCreate c d).diags = []) ∧
      (∀ err, c.encodeError (.cache (cacheCreateBody d)) = some err →
        (resourceCacheCreate c d).d.id = "" ∧ (resourceCacheCreate c d).diags = [err]) ∧
      (∀ re, c.encodeError (.cache (cacheCreateBody d)) = none →
        c.HttpRequest [] (cachePost c d) = .error re →
        (resourceCacheCreate c d).d.id = "" ∧
        (resourceCacheCreate c d).diags = [.request re]) ∧
      (c.EncodeId (d.getString "environment_name") (d.getString "name") ≠ "" →
        (((resourceCacheCreate c d).d.id =
            c.EncodeId (d.getString "environment_name") (d.getString "name")) ↔
          (c.encodeError (.cache (cacheCreateBody d)) = none ∧
            ∃ s, c.HttpRequest [] (cachePost c d) = .ok s)))) ∧
    (((c.encodeError (.kvm (kvmCreateBody d)) = none ∧
          ∃ s, c.HttpRequest [] (kvmPost c d) = .ok s) →
        (resourceEnvironmentKVMCreate c d).d.id =
          c.EncodeId (d.getString "environment_name") (d.getString "name") ∧
        (resourceEnvironmentKVMCreate c d).diags = []) ∧
      (∀ err, c.encodeError (.kvm (kvmCreateBody d)) = some err →
        (resourceEnvironmentKVMCreate c d).d.id = "" ∧
        (resourceEnvironmentKVMCreate c d).diags = [err]) ∧
      (∀ re, c.encodeError (.kvm (kvmCreateBody d)) = none →
        c.HttpRequest [] (kvmPost c d) = .error re →
        (resourceEnvironmentKVMCreate c d).d.id = "" ∧
        (resourceEnvironmentKVMCreate c d).diags = [.request re]) ∧
      (c.EncodeId (d.getString "environment_name") (d.getString "name") ≠ "" →
        (((resourceEnvironmentKVMCreate c d).d.id =
            c.EncodeId (d.getString "environment_name") (d.getString "name")) ↔
          (c.encodeError (.kvm (kvmCreateBody d)) = none ∧
            ∃ s, c.HttpRequest [] (kvmPost c d) = .ok s)))) := by
  have hc := fillCache_names (newCacheOf (d.getString "environment_name") (d.getString "name")) d
  have hk := fillEnvironmentKVM_names
    ⟨d.getString "environment_name", d.getString "name", false, []⟩ d
  simp only [newCacheOf] at hc
  constructor
  · simp only [resourceCacheCreate, cachePost, cacheCreateBody, newCacheOf, hc.1, hc.2]
    cases he : c.encodeError (Payload.cache (fillCache
        { EnvironmentName := d.getString "environment_name", Name := d.getString "name",
          Description := "", ExpirySettings := ⟨none, none, none⟩,
          SkipCacheIfElementSizeInKBExceeds := 0 } d)) with
    | some err =>
      simp [ResourceData.SetId]
      intro hne h2
      exact hne h2.symm
    | none =>
      cases hr : c.HttpRequest [] ⟨.POST, .CachePath c.Organization
          (d.getString "environment_name"), true, .cache (fillCache
        { EnvironmentName := d.getString "environment_name", Name := d.getString "name",
          Description := "", ExpirySettings := ⟨none, none, none⟩,
          SkipCacheIfElementSizeInKBExceeds := 0 } d)⟩ with
      | error re =>
        simp [ResourceData.SetId]
        intro hne h2
        exact hne h2.symm
      | ok s => simp [ResourceData.SetId]
  · simp only [resourceEnvironmentKVMCreate, kvmPost, kvmCreateBody, hk.1, hk.2]
    cases he : c.encodeError (Payload.kvm (fillEnvironmentKVM
        ⟨d.getString "environment_name", d.getString "name", false, []⟩ d)) with
    | some err =>
      simp [ResourceData.SetId]
      intro hne h2
      exact hne h2.symm
    | none =>
      cases hr : c.HttpRequest [] ⟨.POST, .EnvironmentKVMPath c.Organization
          (d.getString "environment_name"), true, .kvm (fillEnvironmentKVM
        ⟨d.getString "environment_name", d.getString "name", false, []⟩ d)⟩ with
      | error re =>
        simp [ResourceData.SetId]
        intro hne h2
        exact hne h2.symm
      | ok s => simp [ResourceData.SetId]

/-- C10: `resourceCacheRead` and `resourceEnvironmentKVMRead` keep the identity when the GET
succeeds and the response decodes; on every failure (a failing GET with any
status code, or a decode error) the identity is cleared and no field is
written; so for a tracked resource (non-empty identity) the identity is
unchanged exactly when the GET succeeds and the response decodes. -/
theorem read_keeps_identity_iff_success (c : Client) (d : ResourceData) :
    ((cacheReadable c d → (resourceCacheRead c d).d.id = d.id) ∧
      (¬ cacheReadable c d →
        (resourceCacheRead c d).d.id = "" ∧
        (resourceCacheRead c d).d.written = d.written ∧
        (resourceCacheRead c d).d.values = d.values ∧
        (resourceCacheRead c d).d.state = d.state) ∧
      (d.id ≠ "" → ((resourceCacheRead c d).d.id = d.id ↔ cacheReadable c d))) ∧
    ((kvmReadable c d → (resourceEnvironmentKVMRead c d).d.id = d.id) ∧
      (¬ kvmReadable c d →
        (resourceEnvironmentKVMRead c d).d.id = "" ∧
        (resourceEnvironmentKVMRead c d).d.written = d.written ∧
        (resourceEnvironmentKVMRead c d).d.values = d.values ∧
        (resourceEnvironmentKVMRead c d).d.state = d.state) ∧
      (d.id ≠ "" → ((resourceEnvironmentKVMRead c d).d.id = d.id ↔ kvmReadable c d))) := by
  constructor
  · simp only [cacheReadable, cacheGet, resourceCacheRead]
    cases hr : c.HttpRequest [] ⟨.GET, .CachePathGet c.Organization (c.DecodeId d.Id).1
        (c.DecodeId d.Id).2, false, .empty⟩ with
    | error re =>
      by_cases h : re.StatusCode = 404 <;> simp [h, ResourceData.SetId] <;>
        intro hid h2 <;> exact absurd h2.symm hid
    | ok body =>
      dsimp only
      cases hd : c.decodeCache body with
      | error err =>
        simp [ResourceData.SetId, hd]
        intro hid h2
        exact absurd h2.symm hid
      | ok retVal =>
        simp only [ResourceData.Set]
        split_ifs <;> simp [hd]
  · simp only [kvmReadable, kvmGet, resourceEnvironmentKVMRead]
    cases hr : c.HttpRequest [] ⟨.GET, .EnvironmentKVMPathGet c.Organization (c.DecodeId d.Id).1
        (c.DecodeId d.Id).2, false, .empty⟩ with
    | error re =>
      by_cases h : re.StatusCode = 404 <;> simp [h, ResourceData.SetId] <;>
        intro hid h2 <;> exact absurd h2.symm hid
    | ok body =>
      dsimp only
      cases hd : c.decodeKVM body with
      | error err =>
        simp [ResourceData.SetId, hd]
        intro hid h2
        exact absurd h2.symm hid
      | ok retVal =>
        simp only [ResourceData.Set]
        split_ifs <;> simp [hd]

/-! ### The update as a sequence of calls -/

/-- Running two lists of calls in a row. -/
theorem runCalls_append (c : Client) (a b : List Request) (tr : List Request) :
    runCalls c (a ++ b) tr =
      (match runCalls c a tr with
       | (tr2, none) => runCalls c b tr2
       | (tr2, some err) => (tr2, some err)) := by
  induction a generalizing tr with
  | nil => simp [runCalls]
  | cons r rest ih =>
    simp only [List.cons_append, runCalls]
    cases he : (if r.body = .empty then none else c.encodeError r.body) with
    | some err => simp
    | none =>
      cases hr : c.HttpRequest tr r with
      | error re => simp
      | ok s => simpa using ih (tr ++ [r])

/-- The first loop of the update issues the planned deletions. -/
theorem deleteLoop_eq_runCalls (c : Client) (envName name : String) (newE oldE : GoMap)
    (tr : List Request) :
    deleteLoop c envName name newE oldE tr =
      runCalls c (deleteCalls c envName name newE oldE) tr := by
  induction oldE generalizing tr with
  | nil => simp [deleteLoop, deleteCalls, runCalls]
  | cons p rest ih =>
    obtain ⟨k, v⟩ := p
    simp only [deleteLoop, deleteCalls, List.filter]
    by_cases h : hasKey newE k = true
    · simp only [h, if_true, Bool.not_true]
      exact ih tr
    · simp only [h, Bool.not_eq_true] at h ⊢
      simp only [h, Bool.not_false, List.map_cons, runCalls, deleteEntry, if_true]
      cases hr : c.HttpRequest tr ⟨.DELETE,
          .EnvironmentKVMPathEntriesGet c.Organization envName name k, false, .empty⟩ with
      | error re => simp
      | ok s =>
        simp only [Bool.false_eq_true, if_false]
        exact ih _

/-- The loop of the public branch issues the planned additions and changes. -/
theorem upsertLoop_eq_runCalls (c : Client) (envName name : String) (oldE newE l : GoMap)
    (tr : List Request) :
    upsertLoop c envName name oldE newE l tr =
      runCalls c (upsertCalls c envName name oldE newE l) tr := by
  induction l generalizing tr with
  | nil => simp [upsertLoop, upsertCalls, runCalls]
  | cons p rest ih =>
    obtain ⟨k, v⟩ := p
    simp only [upsertLoop, upsertCalls, List.filterMap_cons, upsertCall]
    by_cases h : hasKey oldE k = true
    · by_cases h2 : valueAt oldE k = valueAt newE k
      · simp only [h, h2, decide_True, Bool.and_self, if_true]
        exact ih tr
      · simp only [h, h2, decide_False, Bool.and_false, if_true, if_false, runCalls,
          modifyEntry, Bool.false_eq_true]
        simp only [reduceCtorEq, if_false]
        cases he : c.encodeError (.attribute ⟨k, valueAt newE k⟩) with
        | some err => simp
        | none =>
          cases hr : c.HttpRequest tr ⟨.POST,
              .EnvironmentKVMPathEntriesGet c.Organization envName name k, true,
              .attribute ⟨k, valueAt newE k⟩⟩ with
          | error re => simp
          | ok s => exact ih _
    · simp only [h, Bool.false_and, if_false, runCalls, addEntry, Bool.false_eq_true]
      simp only [reduceCtorEq, if_false]
      cases he : c.encodeError (.attribute ⟨k, valueAt newE k⟩) with
      | some err => simp
      | none =>
        cases hr : c.HttpRequest tr ⟨.POST,
            .EnvironmentKVMPathEntries c.Organization envName name, true,
            .attribute ⟨k, valueAt newE k⟩⟩ with
        | error re => simp
        | ok s => exact ih _

/-- The update issues the calls of its plan one after the other and stops at the
first error. -/
theorem update_eq_runCalls (c : Client) (d : ResourceData) :
    resourceEnvironmentKVMUpdate c d =
      ⟨d, diagsOf (runCalls c (updatePlan c d) []).2, (runCalls c (updatePlan c d) []).1⟩ := by
  simp only [resourceEnvironmentKVMUpdate, updatePlan, entryChange, deleteLoop_eq_runCalls,
    upsertLoop_eq_runCalls, runCalls_append]
  rcases hdel : runCalls c (deleteCalls c (c.DecodeId d.Id).1 (c.DecodeId d.Id).2
    (if d.getBool "encrypted" = true then d.getChangeMap "sensitive_entry"
      else d.getChangeMap "entry").2
    (if d.getBool "encrypted" = true then d.getChangeMap "sensitive_entry"
      else d.getChangeMap "entry").1) [] with ⟨tr, _ | err⟩
  · by_cases hp : c.IsPublic = true
    · simp only [hp, if_true]
      rcases hup : runCalls c (upsertCalls c (c.DecodeId d.Id).1 (c.DecodeId d.Id).2
        (if d.getBool "encrypted" = true then d.getChangeMap "sensitive_entry"
          else d.getChangeMap "entry").1
        (if d.getBool "encrypted" = true then d.getChangeMap "sensitive_entry"
          else d.getChangeMap "entry").2
        (if d.getBool "encrypted" = true then d.getChangeMap "sensitive_entry"
          else d.getChangeMap "entry").2) tr with ⟨tr2, _ | err⟩ <;> simp [diagsOf]
    · simp only [hp, if_false, runCalls, putAll, Bool.false_eq_true]
      simp only [reduceCtorEq, if_false]
      cases he : c.encodeError (.kvm (fillEnvironmentKVM
          ⟨(c.DecodeId d.Id).1, (c.DecodeId d.Id).2, false, []⟩ d)) with
      | some err => simp [diagsOf]
      | none =>
        cases hr : c.HttpRequest tr ⟨.PUT,
            .EnvironmentKVMPathGet c.Organization (c.DecodeId d.Id).1 (c.DecodeId d.Id).2, true,
            .kvm (fillEnvironmentKVM
              ⟨(c.DecodeId d.Id).1, (c.DecodeId d.Id).2, false, []⟩ d)⟩ with
        | error re => simp [diagsOf]
        | ok s => simp [diagsOf]
  · simp [diagsOf]

/-- Whatever happens, the calls issued are an initial segment of the planned ones. -/
theorem runCalls_initial (c : Client) (plan tr : List Request) :
    ∃ p, p <+: plan ∧ (runCalls c plan tr).1 = tr ++ p := by
  induction plan generalizing tr with
  | nil => exact ⟨[], List.prefix_refl _, by simp [runCalls]⟩
  | cons r rest ih =>
    simp only [runCalls]
    cases he : (if r.body = .empty then none else c.encodeError r.body) with
    | some err => exact ⟨[], List.nil_prefix, by simp⟩
    | none =>
      cases hr : c.HttpRequest tr r with
      | error re => exact ⟨[r], by simp, by simp⟩
      | ok s =>
        obtain ⟨p, hp, heq⟩ := ih (tr ++ [r])
        refine ⟨r :: p, ?_, ?_⟩
        · exact (List.prefix_cons_inj r).2 hp
        · simpa using heq

/-- Without an error every planned call is issued. -/
theorem runCalls_complete (c : Client) (plan tr : List Request)
    (h : (runCalls c plan tr).2 = none) : (runCalls c plan tr).1 = tr ++ plan := by
  induction plan generalizing tr with
  | nil => simp [runCalls]
  | cons r rest ih =>
    simp only [runCalls] at h ⊢
    cases he : (if r.body = .empty then none else c.encodeError r.body) with
    | some err => simp [he] at h
    | none =>
      cases hr : c.HttpRequest tr r with
      | error re => simp [he, hr] at h
      | ok s =>
        simp only [he, hr] at h
        simpa using ih (tr ++ [r]) h

/-- When every request is answered and every body serializes, the whole plan is issued. -/
theorem runCalls_all_succeed (c : Client) (plan tr : List Request)
    (hok : ∀ t r, ∃ s, c.HttpRequest t r = .ok s) (henc : ∀ p, c.encodeError p = none) :
    runCalls c plan tr = (tr ++ plan, none) := by
  induction plan generalizing tr with
  | nil => simp [runCalls]
  | cons r rest ih =>
    obtain ⟨s, hs⟩ := hok tr r
    simp only [runCalls, henc, ite_self, hs]
    simpa using ih (tr ++ [r])

/-- A trace of successful calls followed by one more successful call. -/
theorem allOk_snoc (c : Client) (tr : List Request) (r : Request) (s : String)
    (h : allOk c tr) (hr : c.HttpRequest tr r = .ok s) : allOk c (tr ++ [r]) := by
  intro pre q post heq
  rcases List.eq_nil_or_concat post with hp | ⟨post2, x, hp⟩
  · subst hp
    have heq1 : tr ++ [r] = pre ++ [q] := heq
    have h2 : tr = pre := List.append_inj_left' heq1 rfl
    have h3 : [r] = [q] := List.append_inj_right' heq1 rfl
    simp only [List.cons.injEq, and_true] at h3
    subst h2
    subst h3
    exact ⟨s, hr⟩
  · subst hp
    have heq2 : tr ++ [r] = (pre ++ q :: post2) ++ [x] := by simpa using heq
    have h2 := List.append_inj_left' heq2 rfl
    exact h pre q post2 h2

/-- How a run ends: with no error after successful calls only, or on a failing
request that is the last one issued, or on a body that does not serialize. -/
theorem runCalls_outcome (c : Client) (plan tr : List Request) (h : allOk c tr) :
    ((runCalls c plan tr).2 = none ∧ allOk c (runCalls c plan tr).1) ∨
    (∃ pre r re, (runCalls c plan tr).1 = pre ++ [r] ∧ allOk c pre ∧
      c.HttpRequest pre r = .error re ∧ (runCalls c plan tr).2 = some (.request re)) ∨
    (∃ p err, c.encodeError p = some err ∧ (runCalls c plan tr).2 = some err ∧
      allOk c (runCalls c plan tr).1) := by
  induction plan generalizing tr with
  | nil => exact Or.inl ⟨by simp [runCalls], by simpa [runCalls] using h⟩
  | cons r rest ih =>
    simp only [runCalls]
    by_cases hb : r.body = .empty
    · simp only [hb, if_true]
      cases hr : c.HttpRequest tr r with
      | error re => exact Or.inr (Or.inl ⟨tr, r, re, rfl, h, hr, rfl⟩)
      | ok s => exact ih (tr ++ [r]) (allOk_snoc c tr r s h hr)
    · simp only [hb, if_false]
      cases he : c.encodeError r.body with
      | some err => exact Or.inr (Or.inr ⟨r.body, err, he, rfl, h⟩)
      | none =>
        cases hr : c.HttpRequest tr r with
        | error re => exact Or.inr (Or.inl ⟨tr, r, re, rfl, h, hr, rfl⟩)
        | ok s => exact ih (tr ++ [r]) (allOk_snoc c tr r s h hr)

/-- The plan does not depend on how the collaborator answers. -/
theorem updatePlan_succeeding (c : Client) (d : ResourceData) :
    updatePlan (succeeding c) d = updatePlan c d := rfl

/-- With every call succeeding the update issues its whole plan and reports nothing. -/
theorem update_succeeding (c : Client) (d : ResourceData) :
    resourceEnvironmentKVMUpdate (succeeding c) d = ⟨d, [], updatePlan c d⟩ := by
  rw [update_eq_runCalls, updatePlan_succeeding,
    runCalls_all_succeed (succeeding c) (updatePlan c d) []
      (fun _ _ => ⟨"", rfl⟩) (fun _ => rfl)]
  simp [diagsOf]

/-- Every planned deletion is a DELETE. -/
theorem deleteCalls_method (c : Client) (envName name : String) (newE oldE : GoMap) :
    ∀ r ∈ deleteCalls c envName name newE oldE, r.method = .DELETE := by
  intro r hr
  simp only [deleteCalls, List.mem_map] at hr
  obtain ⟨p, _, rfl⟩ := hr
  rfl

/-- Every planned addition or change is a POST. -/
theorem upsertCalls_method (c : Client) (envName name : String) (oldE newE l : GoMap) :
    ∀ r ∈ upsertCalls c envName name oldE newE l, r.method = .POST := by
  intro r hr
  simp only [upsertCalls, List.mem_filterMap, upsertCall] at hr
  obtain ⟨p, _, hp⟩ := hr
  split_ifs at hp <;> simp only [Option.some.injEq, reduceCtorEq] at hp <;> subst hp <;> rfl

/-- C8: `resourceEnvironmentKVMUpdate` neither retries nor rolls back.  The calls it
issues are always an initial segment of the sequence issued when every call
succeeds; a call that fails is the last call issued and its error is the one
diagnostic returned; with no error the whole sequence is issued; and in that
sequence the DELETE calls for removed keys come first, followed only by POST
calls (public mode) or the one PUT. -/
theorem kvmUpdate_stops_at_first_failure (c : Client) (d : ResourceData) :
    (resourceEnvironmentKVMUpdate c d).trace <+:
      (resourceEnvironmentKVMUpdate (succeeding c) d).trace ∧
    (∀ pre r post re, (resourceEnvironmentKVMUpdate c d).trace = pre ++ r :: post →
      c.HttpRequest pre r = .error re →
      post = [] ∧ (resourceEnvironmentKVMUpdate c d).diags = [.request re]) ∧
    ((resourceEnvironmentKVMUpdate c d).diags = [] →
      (resourceEnvironmentKVMUpdate c d).trace =
        (resourceEnvironmentKVMUpdate (succeeding c) d).trace) ∧
    ((∀ p, c.encodeError p = none) → (resourceEnvironmentKVMUpdate c d).diags ≠ [] →
      ∃ pre r re, (resourceEnvironmentKVMUpdate c d).trace = pre ++ [r] ∧ allOk c pre ∧
        c.HttpRequest pre r = .error re ∧
        (resourceEnvironmentKVMUpdate c d).diags = [.request re]) ∧
    (resourceEnvironmentKVMUpdate (succeeding c) d).diags = [] ∧
    (∃ dels rest, (resourceEnvironmentKVMUpdate (succeeding c) d).trace = dels ++ rest ∧
      dels = deleteCalls c (c.DecodeId d.Id).1 (c.DecodeId d.Id).2 (entryChange d).2
        (entryChange d).1 ∧
      (∀ r ∈ dels, r.method = .DELETE) ∧
      (∀ r ∈ rest, r.method = .POST ∨ r.method = .PUT)) ∧
    (resourceEnvironmentKVMUpdate c d).d = d := by
  rw [update_succeeding, update_eq_runCalls]
  simp only
  have hnil : allOk c [] := by
    intro pre r post h
    simp at h
  refine ⟨?_, ?_, ?_, ?_, trivial, ?_, trivial⟩
  · obtain ⟨p, hp, heq⟩ := runCalls_initial c (updatePlan c d) []
    rw [heq]
    simpa using hp
  · intro pre r post re hsplit hfail
    rcases runCalls_outcome c (updatePlan c d) [] hnil with ⟨_, hall⟩ | ⟨pre0, r0, re0, htr, hall, hr0, herr⟩ | ⟨_, _, _, _, hall⟩
    · obtain ⟨s, hs⟩ := hall pre r post hsplit
      rw [hs] at hfail
      cases hfail
    · rw [htr] at hsplit
      rcases List.eq_nil_or_concat post with hp | ⟨post2, x, hp⟩
      · subst hp
        have h2 : pre0 = pre := List.append_inj_left' hsplit rfl
        have h3 : [r0] = [r] := List.append_inj_right' hsplit rfl
        simp only [List.cons.injEq, and_true] at h3
        subst h2
        subst h3
        rw [hr0] at hfail
        cases hfail
        exact ⟨rfl, by rw [herr]; rfl⟩
      · subst hp
        have hsplit2 : pre0 ++ [r0] = (pre ++ r :: post2) ++ [x] := by simpa using hsplit
        have h2 := List.append_inj_left' hsplit2 rfl
        obtain ⟨s, hs⟩ := hall pre r post2 h2
        rw [hs] at hfail
        cases hfail
    · obtain ⟨s, hs⟩ := hall pre r post hsplit
      rw [hs] at hfail
      cases hfail
  · intro hd
    have h2 : (runCalls c (updatePlan c d) []).2 = none := by
      cases h : (runCalls c (updatePlan c d) []).2 with
      | none => rfl
      | some err => simp [h, diagsOf] at hd
    simpa using runCalls_complete c (updatePlan c d) [] h2
  · intro henc hd
    rcases runCalls_outcome c (updatePlan c d) [] hnil with ⟨hnone, _⟩ | ⟨pre0, r0, re0, htr, hall, hr0, herr⟩ | ⟨p, err, hp, _, _⟩
    · simp [hnone, diagsOf] at hd
    · exact ⟨pre0, r0, re0, htr, hall, hr0, by rw [herr]; rfl⟩
    · rw [henc p] at hp
      cases hp
  · refine ⟨_, _, rfl, rfl, deleteCalls_method _ _ _ _ _, ?_⟩
    intro r hr
    by_cases hp : c.IsPublic = true
    · simp only [hp, if_true] at hr
      exact Or.inl (upsertCalls_method _ _ _ _ _ _ r hr)
    · simp only [hp, if_false, List.mem_singleton, Bool.false_eq_true] at hr
      subst hr
      exact Or.inr rfl

/-! ### Lookups in a map -/

/-- A value found under a key is a pair of the map. -/
theorem mem_of_lookup (m : GoMap) (k v : String) (h : m.lookup k = some v) : (k, v) ∈ m := by
  induction m with
  | nil => simp at h
  | cons p rest ih =>
    obtain ⟨k0, v0⟩ := p
    simp only [List.lookup_cons] at h
    by_cases hk : k = k0
    · subst hk
      simp only [beq_self_eq_true, Option.some.injEq] at h
      subst h
      exact List.mem_cons_self _ _
    · have hb : (k == k0) = false := by simpa using hk
      simp only [hb] at h
      exact List.mem_cons_of_mem _ (ih h)

/-- A key with no value is not a key of the map, and conversely. -/
theorem lookup_eq_none_iff (m : GoMap) (k : String) : m.lookup k = none ↔ k ∉ keys m := by
  induction m with
  | nil => simp [keys]
  | cons p rest ih =>
    obtain ⟨k0, v0⟩ := p
    simp only [List.lookup_cons, keys, List.map_cons, List.mem_cons, not_or]
    by_cases hk : k = k0
    · subst hk
      simp
    · have hb : (k == k0) = false := by simpa using hk
      simp only [hb, hk, not_false_eq_true, true_and]
      exact ih

/-- In a map without repeated keys a pair is found under its key. -/
theorem lookup_of_mem (m : GoMap) (k v : String) (hm : keysNodup m) (h : (k, v) ∈ m) :
    m.lookup k = some v := by
  induction m with
  | nil => simp at h
  | cons p rest ih =>
    obtain ⟨k0, v0⟩ := p
    simp only [keysNodup, keys, List.map_cons, List.nodup_cons] at hm
    simp only [List.lookup_cons]
    rcases List.mem_cons.1 h with heq | hmem
    · simp only [Prod.mk.injEq] at heq
      obtain ⟨rfl, rfl⟩ := heq
      simp
    · have hne : k ≠ k0 := by
        intro hk
        subst hk
        exact hm.1 (List.mem_map_of_mem Prod.fst hmem)
      have hb : (k == k0) = false := by simpa using hne
      simp only [hb]
      exact ih hm.2 hmem

/-- Go `_, ok := m[k]` is true exactly for the keys of the map. -/
theorem hasKey_iff (m : GoMap) (k : String) : hasKey m k = true ↔ k ∈ keys m := by
  have h := lookup_eq_none_iff m k
  simp only [hasKey]
  cases hl : m.lookup k with
  | none =>
    simp only [hl, true_iff] at h
    simp [h]
  | some v =>
    simp only [hl, reduceCtorEq, false_iff, not_not] at h
    simp [h]

/-- Go `_, ok := m[k]` is false exactly when the lookup finds nothing. -/
theorem hasKey_false_iff (m : GoMap) (k : String) : hasKey m k = false ↔ m.lookup k = none := by
  simp only [hasKey]
  cases m.lookup k <;> simp

/-! ### The planned calls -/

/-- The planned deletions are the deletions of the old keys the new map lacks. -/
theorem mem_deleteCalls (c : Client) (envName name : String) (newE oldE : GoMap)
    (r : Request) :
    r ∈ deleteCalls c envName name newE oldE ↔
      ∃ k, hasKey oldE k = true ∧ hasKey newE k = false ∧ r = deleteEntry c envName name k := by
  simp only [deleteCalls, List.mem_map, List.mem_filter, Bool.not_eq_true', hasKey_iff, keys]
  constructor
  · rintro ⟨p, ⟨hp, hn⟩, rfl⟩
    exact ⟨p.1, ⟨p, hp, rfl⟩, hn, rfl⟩
  · rintro ⟨k, ⟨p, hp, rfl⟩, hn, rfl⟩
    exact ⟨p, ⟨hp, hn⟩, rfl⟩

/-- The planned deletions are pairwise different when the old map repeats no key. -/
theorem deleteCalls_nodup (c : Client) (envName name : String) (newE oldE : GoMap)
    (h : keysNodup oldE) : (deleteCalls c envName name newE oldE).Nodup := by
  have hsub : ((oldE.filter (fun p => !hasKey newE p.1)).map Prod.fst).Nodup :=
    List.Nodup.sublist (List.Sublist.map _ (List.filter_sublist _)) h
  have hinj : Function.Injective (deleteEntry c envName name) := by
    intro a b hab
    simp only [deleteEntry, Request.mk.injEq, Path.EnvironmentKVMPathEntriesGet.injEq] at hab
    exact hab.2.1.2.2.2
  have := List.Nodup.map hinj hsub
  simpa [deleteCalls, List.map_map, Function.comp_def] using this

/-- The call made for a key carries that key in its body. -/
theorem upsertCall_key (c : Client) (envName name : String) (oldE newE : GoMap)
    (k : String) (r : Request) (h : upsertCall c envName name oldE newE k = some r) :
    r.body = .attribute ⟨k, valueAt newE k⟩ ∧ r.method = .POST := by
  simp only [upsertCall] at h
  split_ifs at h <;> simp only [Option.some.injEq, reduceCtorEq] at h <;> subst h <;>
    exact ⟨rfl, rfl⟩

/-- The planned additions and changes are pairwise different when the new map
repeats no key. -/
theorem upsertCalls_nodup (c : Client) (envName name : String) (oldE newE l : GoMap)
    (h : keysNodup l) : (upsertCalls c envName name oldE newE l).Nodup := by
  have heq : upsertCalls c envName name oldE newE l =
      (keys l).filterMap (upsertCall c envName name oldE newE) := by
    simp [upsertCalls, keys, List.filterMap_map, Function.comp_def]
  rw [heq]
  apply List.Nodup.filterMap _ h
  intro a b r ha hb
  have h1 := (upsertCall_key c envName name oldE newE a r ha).1
  have h2 := (upsertCall_key c envName name oldE newE b r hb).1
  rw [h1] at h2
  simp only [Payload.attribute.injEq, Attribute.mk.injEq] at h2
  exact h2.1

/-- The planned additions and changes, read off the two maps. -/
theorem mem_upsertCalls (c : Client) (envName name : String) (oldE newE : GoMap)
    (hn : keysNodup newE) (r : Request) :
    r ∈ upsertCalls c envName name oldE newE newE ↔
      ((∃ k v, newE.lookup k = some v ∧ oldE.lookup k = none ∧
          r = addEntry c envName name k v) ∨
       (∃ k v v0, newE.lookup k = some v ∧ oldE.lookup k = some v0 ∧ v0 ≠ v ∧
          r = modifyEntry c envName name k v)) := by
  simp only [upsertCalls, List.mem_filterMap, upsertCall]
  constructor
  · rintro ⟨⟨k, v⟩, hp, hr⟩
    have hl := lookup_of_mem newE k v hn hp
    have hv : valueAt newE k = v := by simp [valueAt, hl]
    simp only [hv] at hr
    cases ho : oldE.lookup k with
    | none =>
      have : hasKey oldE k = false := (hasKey_false_iff _ _).2 ho
      simp only [this, Bool.false_eq_true, if_false, Option.some.injEq] at hr
      exact Or.inl ⟨k, v, hl, ho, hr.symm⟩
    | some v0 =>
      have h1 : hasKey oldE k = true := by simp [hasKey, ho]
      have h2 : valueAt oldE k = v0 := by simp [valueAt, ho]
      simp only [h1, h2, if_true] at hr
      split_ifs at hr with hvv
      simp only [Option.some.injEq] at hr
      exact Or.inr ⟨k, v, v0, hl, ho, hvv, hr.symm⟩
  · rintro (⟨k, v, hl, ho, rfl⟩ | ⟨k, v, v0, hl, ho, hne, rfl⟩)
    · refine ⟨(k, v), mem_of_lookup _ _ _ hl, ?_⟩
      have : hasKey oldE k = false := (hasKey_false_iff _ _).2 ho
      simp [this, valueAt, hl]
    · refine ⟨(k, v), mem_of_lookup _ _ _ hl, ?_⟩
      have h1 : hasKey oldE k = true := by simp [hasKey, ho]
      simp [h1, valueAt, hl, ho, hne]

/-- C1: in public mode with every call succeeding, `resourceEnvironmentKVMUpdate` issues
exactly these calls, each once: a DELETE on the per-key entry path for every key
of `before` that `after` lacks, a POST on the entries path for every key of
`after` that `before` lacks, and a POST on the per-key entry path for every key
of both whose value differs; each POST body carries the key and its after value;
a key of both with equal value gets no call. -/
theorem kvmUpdate_public_diff (c : Client) (d : ResourceData) (before after : GoMap)
    (hpub : c.IsPublic = true)
    (hok : ∀ t r, ∃ s, c.HttpRequest t r = .ok s)
    (henc : ∀ p, c.encodeError p = none)
    (hchange : entryChange d = (before, after))
    (hb : keysNodup before) (ha : keysNodup after) :
    (resourceEnvironmentKVMUpdate c d).diags = [] ∧
    (resourceEnvironmentKVMUpdate c d).trace.Nodup ∧
    (∀ r, r ∈ (resourceEnvironmentKVMUpdate c d).trace ↔
      ((∃ k, hasKey before k = true ∧ hasKey after k = false ∧
          r = deleteEntry c (c.DecodeId d.Id).1 (c.DecodeId d.Id).2 k) ∨
       (∃ k v, after.lookup k = some v ∧ before.lookup k = none ∧
          r = addEntry c (c.DecodeId d.Id).1 (c.DecodeId d.Id).2 k v) ∨
       (∃ k v v0, after.lookup k = some v ∧ before.lookup k = some v0 ∧ v0 ≠ v ∧
          r = modifyEntry c (c.DecodeId d.Id).1 (c.DecodeId d.Id).2 k v))) ∧
    (∀ k v, before.lookup k = some v → after.lookup k = some v →
      ∀ r ∈ (resourceEnvironmentKVMUpdate c d).trace, keyOf r ≠ some k) := by
  have htrace : resourceEnvironmentKVMUpdate c d =
      ⟨d, [], deleteCalls c (c.DecodeId d.Id).1 (c.DecodeId d.Id).2 after before ++
        upsertCalls c (c.DecodeId d.Id).1 (c.DecodeId d.Id).2 before after after⟩ := by
    rw [update_eq_runCalls, runCalls_all_succeed c (updatePlan c d) [] hok henc]
    simp [diagsOf, updatePlan, hchange, hpub]
  have hmem : ∀ r, r ∈ (resourceEnvironmentKVMUpdate c d).trace ↔
      ((∃ k, hasKey before k = true ∧ hasKey after k = false ∧
          r = deleteEntry c (c.DecodeId d.Id).1 (c.DecodeId d.Id).2 k) ∨
       (∃ k v, after.lookup k = some v ∧ before.lookup k = none ∧
          r = addEntry c (c.DecodeId d.Id).1 (c.DecodeId d.Id).2 k v) ∨
       (∃ k v v0, after.lookup k = some v ∧ before.lookup k = some v0 ∧ v0 ≠ v ∧
          r = modifyEntry c (c.DecodeId d.Id).1 (c.DecodeId d.Id).2 k v)) := by
    intro r
    rw [htrace]
    simp only [List.mem_append, mem_deleteCalls, mem_upsertCalls _ _ _ _ _ ha]
  refine ⟨by rw [htrace], ?_, hmem, ?_⟩
  · rw [htrace]
    simp only
    refine List.Nodup.append (deleteCalls_nodup _ _ _ _ _ hb) (upsertCalls_nodup _ _ _ _ _ _ ha) ?_
    intro r h1 h2
    have m1 := deleteCalls_method _ _ _ _ _ r h1
    have m2 := upsertCalls_method _ _ _ _ _ _ r h2
    rw [m1] at m2
    cases m2
  · intro k v hbk hak r hr
    rcases (hmem r).1 hr with ⟨k2, _, h2, rfl⟩ | ⟨k2, v2, _, h2, rfl⟩ | ⟨k2, v2, v0, h1, h2, hne, rfl⟩
    · intro hkey
      simp only [keyOf, deleteEntry, Option.some.injEq] at hkey
      subst hkey
      rw [(hasKey_false_iff _ _).1 h2] at hak
      cases hak
    · intro hkey
      simp only [keyOf, addEntry, Option.some.injEq] at hkey
      subst hkey
      rw [h2] at hbk
      cases hbk
    · intro hkey
      simp only [keyOf, modifyEntry, Option.some.injEq] at hkey
      subst hkey
      rw [h1] at hak
      rw [h2] at hbk
      simp only [Option.some.injEq] at hak hbk
      exact hne (hbk.trans hak.symm)

/-- The spec's example of C1: before a=1, b=2 and after b=2, c=3 give DELETE a, then
POST add c=3, and nothing for b. -/
theorem kvmUpdate_public_diff_witness :
    (resourceEnvironmentKVMUpdate (sampleClient true "" (.error (.json "EOF"))
        (.error (.json "EOF"))) sampleUpdate).trace =
      [⟨.DELETE, .EnvironmentKVMPathEntriesGet "org" "env" "map" "a", false, .empty⟩,
       ⟨.POST, .EnvironmentKVMPathEntries "org" "env" "map", true, .attribute ⟨"c", "3"⟩⟩] ∧
    (∀ r ∈ (resourceEnvironmentKVMUpdate (sampleClient true "" (.error (.json "EOF"))
        (.error (.json "EOF"))) sampleUpdate).trace, keyOf r ≠ some "b") :=
  ⟨by decide,
   (kvmUpdate_public_diff (sampleClient true "" (.error (.json "EOF")) (.error (.json "EOF")))
      sampleUpdate [("a", "1"), ("b", "2")] [("b", "2"), ("c", "3")] rfl
      (fun _ _ => ⟨"", rfl⟩) (fun _ => rfl) (by decide) (by decide) (by decide)).2.2.2
      "b" "2" (by decide) (by decide)⟩

/-! ### The bulk branch -/

/-- Appending the attribute of every pair, one at a time. -/
theorem foldl_append_attributes (m : GoMap) (init : List Attribute) :
    m.foldl (fun acc p => acc ++ [Attribute.mk p.1 p.2]) init = init ++ toAttributes m := by
  induction m generalizing init with
  | nil => simp [toAttributes]
  | cons p rest ih => simp [List.foldl_cons, ih, toAttributes]

/-- What `fillEnvironmentKVM` builds from an object with the flag off and no entries:
the flag of the configuration and the entries of the field the flag selects. -/
theorem fillEnvironmentKVM_fresh (e n : String) (d : ResourceData) :
    fillEnvironmentKVM ⟨e, n, false, []⟩ d =
      ⟨e, n, d.getBool "encrypted",
        toAttributes (d.getMap (selectedField (d.getBool "encrypted")))⟩ := by
  simp only [fillEnvironmentKVM, ResourceData.getOkBool, ResourceData.getOkMap, selectedField,
    foldl_append_attributes]
  cases henc : d.getBool "encrypted"
  · simp only [Bool.false_eq_true, if_false]
    cases hm : d.getMap "entry" <;> simp [toAttributes]
  · simp only [if_true]
    cases hm : d.getMap "sensitive_entry" <;> simp [toAttributes]

/-- With nothing set yet, the map a field reads as is the second half of its change. -/
theorem getMap_fresh (d : ResourceData) (key : String) (hfresh : d.written = []) :
    d.getMap key = (d.getChangeMap key).2 := by
  simp [ResourceData.getMap, ResourceData.getChangeMap, ResourceData.raw, hfresh]

/-- C2: in non-public mode with every call succeeding, `resourceEnvironmentKVMUpdate`
issues the DELETE calls for the keys of `before` that `after` lacks (the same
DELETE calls as public mode), then exactly one PUT to the key-value-map path
whose body holds the entries of `after`, each key with its after value and
nothing else; it issues no POST. -/
theorem kvmUpdate_bulk_put (c : Client) (d : ResourceData) (before after : GoMap)
    (hpub : c.IsPublic = false)
    (hok : ∀ t r, ∃ s, c.HttpRequest t r = .ok s)
    (henc : ∀ p, c.encodeError p = none)
    (hfresh : d.written = [])
    (hchange : entryChange d = (before, after)) :
    (resourceEnvironmentKVMUpdate c d).diags = [] ∧
    (resourceEnvironmentKVMUpdate c d).trace =
      deleteCalls c (c.DecodeId d.Id).1 (c.DecodeId d.Id).2 after before ++
        [putAll c (c.DecodeId d.Id).1 (c.DecodeId d.Id).2
          ⟨(c.DecodeId d.Id).1, (c.DecodeId d.Id).2, d.getBool "encrypted",
            toAttributes after⟩] ∧
    (resourceEnvironmentKVMUpdate c d).trace.filter (fun r => decide (r.method = .PUT)) =
      [putAll c (c.DecodeId d.Id).1 (c.DecodeId d.Id).2
        ⟨(c.DecodeId d.Id).1, (c.DecodeId d.Id).2, d.getBool "encrypted",
          toAttributes after⟩] ∧
    (resourceEnvironmentKVMUpdate c d).trace.filter (fun r => decide (r.method = .DELETE)) =
      (resourceEnvironmentKVMUpdate (asPublic c) d).trace.filter
        (fun r => decide (r.method = .DELETE)) ∧
    (∀ r, (r ∈ (resourceEnvironmentKVMUpdate c d).trace ∧ r.method = .DELETE) ↔
      ∃ k, hasKey before k = true ∧ hasKey after k = false ∧
        r = deleteEntry c (c.DecodeId d.Id).1 (c.DecodeId d.Id).2 k) ∧
    (∀ r ∈ (resourceEnvironmentKVMUpdate c d).trace, r.method ≠ .POST) ∧
    (∀ a, a ∈ toAttributes after ↔ (a.Name, a.Value) ∈ after) := by
  have hsel : d.getMap (selectedField (d.getBool "encrypted")) = after := by
    rw [getMap_fresh d _ hfresh]
    have h2 := congrArg Prod.snd hchange
    simp only [entryChange] at h2
    simp only [selectedField]
    cases hb : d.getBool "encrypted" <;> simp only [hb, Bool.false_eq_true, if_false, if_true] at h2 ⊢ <;>
      exact h2
  have htrace : resourceEnvironmentKVMUpdate c d =
      ⟨d, [], deleteCalls c (c.DecodeId d.Id).1 (c.DecodeId d.Id).2 after before ++
        [putAll c (c.DecodeId d.Id).1 (c.DecodeId d.Id).2
          ⟨(c.DecodeId d.Id).1, (c.DecodeId d.Id).2, d.getBool "encrypted",
            toAttributes after⟩]⟩ := by
    rw [update_eq_runCalls, runCalls_all_succeed c (updatePlan c d) [] hok henc]
    simp [diagsOf, updatePlan, hchange, hpub, fillEnvironmentKVM_fresh, hsel]
  have hpubtrace : resourceEnvironmentKVMUpdate (asPublic c) d =
      ⟨d, [], deleteCalls c (c.DecodeId d.Id).1 (c.DecodeId d.Id).2 after before ++
        upsertCalls c (c.DecodeId d.Id).1 (c.DecodeId d.Id).2 before after after⟩ := by
    rw [update_eq_runCalls, runCalls_all_succeed (asPublic c) (updatePlan (asPublic c) d) []
      hok henc]
    simp [diagsOf, updatePlan, hchange, asPublic, deleteCalls, upsertCalls, upsertCall,
      deleteEntry, addEntry, modifyEntry]
  have hdel : (deleteCalls c (c.DecodeId d.Id).1 (c.DecodeId d.Id).2 after before).filter
      (fun r => decide (r.method = .DELETE)) =
      deleteCalls c (c.DecodeId d.Id).1 (c.DecodeId d.Id).2 after before := by
    rw [List.filter_eq_self]
    intro r hr
    simp [deleteCalls_method _ _ _ _ _ r hr]
  have hdelput : (deleteCalls c (c.DecodeId d.Id).1 (c.DecodeId d.Id).2 after before).filter
      (fun r => decide (r.method = .PUT)) = [] := by
    rw [List.filter_eq_nil_iff]
    intro r hr
    simp [deleteCalls_method _ _ _ _ _ r hr]
  have hups : (upsertCalls c (c.DecodeId d.Id).1 (c.DecodeId d.Id).2 before after after).filter
      (fun r => decide (r.method = .DELETE)) = [] := by
    rw [List.filter_eq_nil_iff]
    intro r hr
    simp [upsertCalls_method _ _ _ _ _ _ r hr]
  refine ⟨by rw [htrace], by rw [htrace], ?_, ?_, ?_, ?_, ?_⟩
  · rw [htrace]
    simp [List.filter_append, hdelput, putAll]
  · rw [htrace, hpubtrace]
    simp [List.filter_append, hdel, hups, putAll]
  · intro r
    rw [htrace]
    simp only [List.mem_append, List.mem_singleton]
    constructor
    · rintro ⟨hr | hr, hm⟩
      · exact (mem_deleteCalls _ _ _ _ _ _).1 hr
      · subst hr
        simp [putAll] at hm
    · intro h
      have hr := (mem_deleteCalls _ _ _ _ _ _).2 h
      exact ⟨Or.inl hr, deleteCalls_method _ _ _ _ _ r hr⟩
  · intro r hr
    rw [htrace] at hr
    simp only [List.mem_append, List.mem_singleton] at hr
    rcases hr with hr | hr
    · simp [deleteCalls_method _ _ _ _ _ r hr]
    · subst hr
      simp [putAll]
  · intro a
    simp only [toAttributes, List.mem_map]
    constructor
    · rintro ⟨p, hp, rfl⟩
      exact hp
    · intro h
      exact ⟨(a.Name, a.Value), h, rfl⟩

/-! ### The encrypted flag -/

/-- The two entry fields are different, and neither is one of the other fields read. -/
theorem otherField_ne (b : Bool) :
    selectedField b ≠ otherField b ∧ "encrypted" ≠ otherField b ∧
    "environment_name" ≠ otherField b ∧ "name" ≠ otherField b := by
  cases b <;> simp [selectedField, otherField]

/-- Replacing one field leaves every other field as it was. -/
theorem agreeExcept_overwrite (d : ResourceData) (key : String) (old new : Value) :
    agreeExcept key d (overwrite d key old new) := by
  refine ⟨rfl, ?_⟩
  intro k hk
  have hb : (k == key) = false := by simpa using hk
  refine ⟨?_, ?_, ?_⟩
  · simp only [ResourceData.raw, overwrite]
    induction d.written with
    | nil => simp [List.lookup_cons, hb]
    | cons p rest ih =>
      obtain ⟨k0, v0⟩ := p
      simp only [List.cons_append, List.lookup_cons, ih]
  · simp [overwrite, List.lookup_cons, hb]
  · simp [overwrite, List.lookup_cons, hb]

/-- What the write paths read from the resource data does not involve the field the
flag leaves aside. -/
theorem agreeExcept_reads (d d2 : ResourceData)
    (h : agreeExcept (otherField (d.getBool "encrypted")) d d2) :
    d2.id = d.id ∧ d2.getBool "encrypted" = d.getBool "encrypted" ∧
    d2.getString "environment_name" = d.getString "environment_name" ∧
    d2.getString "name" = d.getString "name" ∧
    d2.getMap (selectedField (d.getBool "encrypted")) =
      d.getMap (selectedField (d.getBool "encrypted")) ∧
    d2.getChangeMap (selectedField (d.getBool "encrypted")) =
      d.getChangeMap (selectedField (d.getBool "encrypted")) := by
  obtain ⟨hid, hk⟩ := h
  obtain ⟨h1, h2, h3, h4⟩ := otherField_ne (d.getBool "encrypted")
  refine ⟨hid.symm, ?_, ?_, ?_, ?_, ?_⟩
  · simp only [ResourceData.getBool, (hk _ h2).1]
  · simp only [ResourceData.getString, (hk _ h3).1]
  · simp only [ResourceData.getString, (hk _ h4).1]
  · simp only [ResourceData.getMap, (hk _ h1).1]
  · simp only [ResourceData.getChangeMap, (hk _ h1).2.1, (hk _ h1).2.2]

/-- The before and after maps of an update are those of the field the flag selects. -/
theorem entryChange_selected (d : ResourceData) :
    entryChange d = d.getChangeMap (selectedField (d.getBool "encrypted")) := by
  simp only [entryChange, selectedField]
  cases d.getBool "encrypted" <;> simp

/-- C6: the encrypted flag alone selects the entry field.  A successful read writes
the mapping rebuilt from the response to sensitive_entry when the returned flag is
true and to entry otherwise, and does not write the other field.  On write,
`fillEnvironmentKVM` (create and bulk update) and the before/after lookup of the
update take the entries from the field the configured flag selects, and the
requests and diagnostics of create and update are the same for any two resource
data that differ only in the other field. -/
theorem encrypted_flag_selects_field (c : Client) (d : ResourceData) :
    (∀ body retVal, d.written = [] →
      c.HttpRequest [] (kvmGet c d) = .ok body → c.decodeKVM body = .ok retVal →
      writesAt (resourceEnvironmentKVMRead c d).d ["entry", "sensitive_entry"] =
        [(selectedField retVal.Encrypted, .map (rebuilt retVal))] ∧
      writesAt (resourceEnvironmentKVMRead c d).d [otherField retVal.Encrypted] = []) ∧
    ((kvmCreateBody d).Entries =
        toAttributes (d.getMap (selectedField (d.getBool "encrypted"))) ∧
      (fillEnvironmentKVM ⟨(c.DecodeId d.Id).1, (c.DecodeId d.Id).2, false, []⟩ d).Entries =
        toAttributes (d.getMap (selectedField (d.getBool "encrypted"))) ∧
      entryChange d = d.getChangeMap (selectedField (d.getBool "encrypted"))) ∧
    (∀ d2, agreeExcept (otherField (d.getBool "encrypted")) d d2 →
      (resourceEnvironmentKVMCreate c d2).trace = (resourceEnvironmentKVMCreate c d).trace ∧
      (resourceEnvironmentKVMCreate c d2).diags = (resourceEnvironmentKVMCreate c d).diags ∧
      (resourceEnvironmentKVMUpdate c d2).trace = (resourceEnvironmentKVMUpdate c d).trace ∧
      (resourceEnvironmentKVMUpdate c d2).diags = (resourceEnvironmentKVMUpdate c d).diags) := by
  refine ⟨?_, ⟨?_, ?_, entryChange_selected d⟩, ?_⟩
  · intro body retVal hfresh hget hdec
    simp only [kvmGet] at hget
    simp only [resourceEnvironmentKVMRead, hget, hdec, writesAt, ResourceData.Set, hfresh,
      rebuilt, selectedField, otherField]
    cases retVal.Encrypted <;> simp [List.filter]
  · simp only [kvmCreateBody, fillEnvironmentKVM_fresh]
  · simp only [fillEnvironmentKVM_fresh]
  · intro d2 hagree
    obtain ⟨hid, hbool, henv, hname, hmap, hchg⟩ := agreeExcept_reads d d2 hagree
    have hbody : kvmCreateBody d2 = kvmCreateBody d := by
      simp only [kvmCreateBody, fillEnvironmentKVM_fresh, hbool, henv, hname, hmap]
    have hplan : updatePlan c d2 = updatePlan c d := by
      simp only [updatePlan, entryChange_selected, fillEnvironmentKVM_fresh, hbool, hmap, hchg,
        ResourceData.Id, hid]
    have hcreate : ∀ x : ResourceData, resourceEnvironmentKVMCreate c x =
        (match c.encodeError (.kvm (kvmCreateBody x)) with
         | some err => ⟨x.SetId "", [err], []⟩
         | none =>
           match c.HttpRequest [] (kvmPost c x) with
           | .error re => ⟨x.SetId "", [.request re], [kvmPost c x]⟩
           | .ok _ =>
             ⟨x.SetId (c.EncodeId (kvmCreateBody x).EnvironmentName (kvmCreateBody x).Name), [],
               [kvmPost c x]⟩) := fun _ => rfl
    have hpost : kvmPost c d2 = kvmPost c d := by simp only [kvmPost, hbody]
    refine ⟨?_, ?_, ?_, ?_⟩
    · rw [hcreate d2, hcreate d, hbody, hpost]
      cases c.encodeError (.kvm (kvmCreateBody d)) with
      | some err => rfl
      | none => cases c.HttpRequest [] (kvmPost c d) <;> rfl
    · rw [hcreate d2, hcreate d, hbody, hpost]
      cases c.encodeError (.kvm (kvmCreateBody d)) with
      | some err => rfl
      | none => cases c.HttpRequest [] (kvmPost c d) <;> rfl
    · rw [update_eq_runCalls, update_eq_runCalls, hplan]
    · rw [update_eq_runCalls, update_eq_runCalls, hplan]

/-! ### The properties at sample inputs -/

/-- C2 at the spec's example in non-public mode: DELETE a, then one PUT of b=2, c=3. -/
theorem kvmUpdate_bulk_put_witness :
    (resourceEnvironmentKVMUpdate (sampleClient false "" (.error (.json "EOF"))
        (.error (.json "EOF"))) sampleUpdate).trace =
      [⟨.DELETE, .EnvironmentKVMPathEntriesGet "org" "env" "map" "a", false, .empty⟩,
       ⟨.PUT, .EnvironmentKVMPathGet "org" "env" "map", true,
         .kvm ⟨"env", "map", false, [⟨"b", "2"⟩, ⟨"c", "3"⟩]⟩⟩] ∧
    (∀ r ∈ (resourceEnvironmentKVMUpdate (sampleClient false "" (.error (.json "EOF"))
        (.error (.json "EOF"))) sampleUpdate).trace, r.method ≠ .POST) :=
  ⟨by decide,
   (kvmUpdate_bulk_put (sampleClient false "" (.error (.json "EOF")) (.error (.json "EOF")))
      sampleUpdate [("a", "1"), ("b", "2")] [("b", "2"), ("c", "3")] rfl
      (fun _ _ => ⟨"", rfl⟩) (fun _ => rfl) rfl (by decide)).2.2.2.2.2.1⟩

/-- C3 at a sample: a 404 on the cache read reports nothing and clears the identity;
a 500 on the key-value-map read is reported. -/
theorem read_failed_get_silent_iff_404_witness :
    (resourceCacheRead goneClient sampleTracked).diags = [] ∧
    (resourceCacheRead goneClient sampleTracked).d.id = "" ∧
    (resourceEnvironmentKVMRead goneClient sampleTracked).diags =
      [.request ⟨500, "server error"⟩] :=
  ⟨((read_failed_get_silent_iff_404 goneClient sampleTracked).1
      ⟨404, "not found"⟩ rfl).1.2 rfl,
   ((read_failed_get_silent_iff_404 goneClient sampleTracked).1
      ⟨404, "not found"⟩ rfl).2.1 rfl,
   ((read_failed_get_silent_iff_404 goneClient sampleTracked).2
      ⟨500, "server error"⟩ rfl).2.2 (by decide)⟩

/-- C4 at a sample: a response with all three expiry values surfaces the timeout only. -/
theorem cacheRead_expiry_precedence_witness :
    writesAt (resourceCacheRead readingClient sampleTracked).d expiryFields =
      [("expiry_timeout_in_sec", .str "300")] :=
  (cacheRead_expiry_precedence readingClient sampleTracked "body" sampleCacheResponse
    rfl rfl rfl).2.2.1 rfl

/-- C5 at samples: a response with empty description and zero threshold writes
neither field; a resource that had neither keeps both unset, and a resource whose
state holds description "old" and threshold 12 keeps those values. -/
theorem cacheRead_omits_zero_valued_witness :
    (writesAt (resourceCacheRead readingClient sampleTracked).d
        ["description", "skip_cache_if_element_size_in_kb_exceeds"] = [] ∧
      (resourceCacheRead readingClient sampleTracked).d.raw "description" = none ∧
      (resourceCacheRead readingClient sampleTracked).d.raw
        "skip_cache_if_element_size_in_kb_exceeds" = none) ∧
    (writesAt (resourceCacheRead readingClient sampleStale).d
        ["description", "skip_cache_if_element_size_in_kb_exceeds"] = [] ∧
      (resourceCacheRead readingClient sampleStale).d.raw "description" =
        sampleStale.raw "description" ∧
      (resourceCacheRead readingClient sampleStale).d.raw
        "skip_cache_if_element_size_in_kb_exceeds" =
        sampleStale.raw "skip_cache_if_element_size_in_kb_exceeds") :=
  ⟨⟨((cacheRead_omits_zero_valued readingClient sampleTracked "body" sampleCacheResponse
        rfl rfl rfl).2.2 rfl rfl).1,
    ((cacheRead_omits_zero_valued readingClient sampleTracked "body" sampleCacheResponse
        rfl rfl rfl).2.2 rfl rfl).2.2.2.1 rfl,
    ((cacheRead_omits_zero_valued readingClient sampleTracked "body" sampleCacheResponse
        rfl rfl rfl).2.2 rfl rfl).2.2.2.2 rfl⟩,
   ⟨((cacheRead_omits_zero_valued readingClient sampleStale "body" sampleCacheResponse
        rfl rfl rfl).2.2 rfl rfl).1,
    ((cacheRead_omits_zero_valued readingClient sampleStale "body" sampleCacheResponse
        rfl rfl rfl).2.2 rfl rfl).2.1,
    ((cacheRead_omits_zero_valued readingClient sampleStale "body" sampleCacheResponse
        rfl rfl rfl).2.2 rfl rfl).2.2.1⟩⟩

/-- C5 as stated fails: the GET succeeds and the response decodes with an empty
description and a zero threshold, the read reports nothing, and yet after the read
of a resource whose state holds description "old" and threshold 12 both fields
are still set, to those values. -/
theorem cacheRead_fields_stay_set :
    readingClient.HttpRequest [] (cacheGet readingClient sampleStale) = .ok "body" ∧
    readingClient.decodeCache "body" = .ok sampleCacheResponse ∧
    sampleCacheResponse.Description = "" ∧
    sampleCacheResponse.SkipCacheIfElementSizeInKBExceeds = 0 ∧
    (resourceCacheRead readingClient sampleStale).diags = [] ∧
    (resourceCacheRead readingClient sampleStale).d.raw "description" = some (.str "old") ∧
    (resourceCacheRead readingClient sampleStale).d.raw
      "skip_cache_if_element_size_in_kb_exceeds" = some (.int 12) ∧
    ((resourceCacheRead readingClient sampleStale).d.getOkString "description").2 = true ∧
    ((resourceCacheRead readingClient sampleStale).d.getOkInt
      "skip_cache_if_element_size_in_kb_exceeds").2 = true ∧
    ¬ ((resourceCacheRead readingClient sampleStale).d.raw "description" = none ∧
      (resourceCacheRead readingClient sampleStale).d.raw
        "skip_cache_if_element_size_in_kb_exceeds" = none) := by
  refine ⟨rfl, rfl, rfl, rfl, by decide, by decide, by decide, by decide, by decide, ?_⟩
  decide

/-- C6 at a sample: an encrypted response is written to sensitive_entry only, and
content put in sensitive_entry of a plain configuration changes no request of the
update. -/
theorem encrypted_flag_selects_field_witness :
    writesAt (resourceEnvironmentKVMRead readingClient sampleTracked).d
      ["entry", "sensitive_entry"] = [("sensitive_entry", .map [("k", "v")])] ∧
    (resourceEnvironmentKVMUpdate readingClient
        (overwrite sampleUpdate "sensitive_entry" (.map [("s", "old")])
          (.map [("s", "secret")]))).trace =
      (resourceEnvironmentKVMUpdate readingClient sampleUpdate).trace :=
  ⟨((encrypted_flag_selects_field readingClient sampleTracked).1 "body" sampleKVMResponse
      rfl rfl rfl).1,
   ((encrypted_flag_selects_field readingClient sampleUpdate).2.2
      (overwrite sampleUpdate "sensitive_entry" (.map [("s", "old")]) (.map [("s", "secret")]))
      (agreeExcept_overwrite sampleUpdate "sensitive_entry" _ _)).2.2.1⟩

/-- C7 at a sample: a create whose serialization and POST succeed stores `env:cache1`
and reports nothing, and a create whose POST fails leaves the identity empty; the
identity is `env:cache1` exactly when both succeed. -/
theorem create_identity_iff_success_witness :
    ((resourceCacheCreate readingClient sampleCacheConfig).d.id = "env:cache1" ∧
      (resourceCacheCreate readingClient sampleCacheConfig).diags = []) ∧
    ((resourceCacheCreate (failingClient 500) sampleCacheConfig).d.id = "" ∧
      (resourceCacheCreate (failingClient 500) sampleCacheConfig).diags =
        [.request ⟨500, "failed"⟩]) ∧
    ((resourceCacheCreate readingClient sampleCacheConfig).d.id = "env:cache1" ↔
      (readingClient.encodeError (.cache (cacheCreateBody sampleCacheConfig)) = none ∧
        ∃ s, readingClient.HttpRequest [] (cachePost readingClient sampleCacheConfig) =
          .ok s)) :=
  ⟨(create_identity_iff_success readingClient sampleCacheConfig).1.1 ⟨rfl, "body", rfl⟩,
   (create_identity_iff_success (failingClient 500) sampleCacheConfig).1.2.2.1
      ⟨500, "failed"⟩ rfl rfl,
   (create_identity_iff_success readingClient sampleCacheConfig).1.2.2.2 (by decide)⟩

/-- C8 at a sample: of the four calls of an update (DELETE a, DELETE x, POST c, POST y)
the second fails with status 500; the two deletions are all that is issued, the
error is returned, and the two POST calls are never made. -/
theorem kvmUpdate_stops_at_first_failure_witness :
    (resourceEnvironmentKVMUpdate (succeeding secondFails) sampleUpdate2).trace =
      [⟨.DELETE, .EnvironmentKVMPathEntriesGet "org" "env" "map" "a", false, .empty⟩,
       ⟨.DELETE, .EnvironmentKVMPathEntriesGet "org" "env" "map" "x", false, .empty⟩,
       ⟨.POST, .EnvironmentKVMPathEntries "org" "env" "map", true, .attribute ⟨"c", "3"⟩⟩,
       ⟨.POST, .EnvironmentKVMPathEntries "org" "env" "map", true, .attribute ⟨"y", "9"⟩⟩] ∧
    (resourceEnvironmentKVMUpdate secondFails sampleUpdate2).trace =
      [⟨.DELETE, .EnvironmentKVMPathEntriesGet "org" "env" "map" "a", false, .empty⟩,
       ⟨.DELETE, .EnvironmentKVMPathEntriesGet "org" "env" "map" "x", false, .empty⟩] ∧
    (resourceEnvironmentKVMUpdate secondFails sampleUpdate2).diags =
      [.request ⟨500, "failed"⟩] ∧
    (resourceEnvironmentKVMUpdate secondFails sampleUpdate2).trace <+:
      (resourceEnvironmentKVMUpdate (succeeding secondFails) sampleUpdate2).trace :=
  ⟨by decide, by decide,
   ((kvmUpdate_stops_at_first_failure secondFails sampleUpdate2).2.1
      [⟨.DELETE, .EnvironmentKVMPathEntriesGet "org" "env" "map" "a", false, .empty⟩]
      ⟨.DELETE, .EnvironmentKVMPathEntriesGet "org" "env" "map" "x", false, .empty⟩ []
      ⟨500, "failed"⟩ (by decide) rfl).2,
   (kvmUpdate_stops_at_first_failure secondFails sampleUpdate2).1⟩

/-- C9 at a sample: with all three expiry fields configured only the expiry date is kept. -/
theorem fillCache_expiry_exclusive_witness :
    (fillCache (newCacheOf "env" "cache1") sampleCacheConfig).ExpirySettings =
      ⟨none, none, some ⟨"12-31-2030"⟩⟩ :=
  ((fillCache_expiry_exclusive (newCacheOf "env" "cache1") sampleCacheConfig rfl).2.2).trans
    (by decide)

/-- C10 at a sample: a read whose GET fails clears the identity of a tracked resource
and writes nothing. -/
theorem read_keeps_identity_iff_success_witness :
    (resourceCacheRead goneClient sampleTracked).d.id = "" ∧
    (resourceCacheRead goneClient sampleTracked).d.written = [] ∧
    ((resourceCacheRead readingClient sampleTracked).d.id = "env:cache1" ↔
      cacheReadable readingClient sampleTracked) :=
  ⟨((read_keeps_identity_iff_success goneClient sampleTracked).1.2.1
      (by rintro ⟨b, r, h, _⟩; cases h)).1,
   ((read_keeps_identity_iff_success goneClient sampleTracked).1.2.1
      (by rintro ⟨b, r, h, _⟩; cases h)).2.1,
   (read_keeps_identity_iff_success readingClient sampleTracked).1.2.2 (by decide)⟩

end Apigee
